import Mathlib

set_option autoImplicit false

/-!
Shallow embedding of the airProxyPool core (src/proxychain) and proofs about it.

Python dicts are modelled as insertion-ordered association lists over String
keys; datetimes are modelled as natural numbers (the epoch is 0 and real
timestamps are positive); sets of strings are modelled as lists used only
through membership.  Fallible operations return Option.
-/

namespace AirProxyPool

/-! ### Association-list model of Python dict -/

def dictGet {α : Type} (key : String) : List (String × α) → Option α
  | [] => none
  | (k, v) :: rest => if k = key then some v else dictGet key rest

/-- Python dict assignment: replace in place when the key exists, else append. -/
def dictInsert {α : Type} (key : String) (value : α) : List (String × α) → List (String × α)
  | [] => [(key, value)]
  | (k, v) :: rest =>
    if k = key then (k, value) :: rest else (k, v) :: dictInsert key value rest

/-- Python del d[key] (removes the first matching entry; keys are unique). -/
def dictRemove {α : Type} (key : String) : List (String × α) → List (String × α)
  | [] => []
  | (k, v) :: rest => if k = key then rest else (k, v) :: dictRemove key rest

def dictKeys {α : Type} (l : List (String × α)) : List String := l.map Prod.fst

def dictValues {α : Type} (l : List (String × α)) : List α := l.map Prod.snd

/-- Python dict.setdefault: insert at the end only when the key is absent. -/
def dictSetdefault {α : Type} (key : String) (value : α) (l : List (String × α)) :
    List (String × α) :=
  if (dictGet key l).isSome then l else l ++ [(key, value)]

theorem dictGet_insert_self {α : Type} (key : String) (value : α) (l : List (String × α)) :
    dictGet key (dictInsert key value l) = some value := by
  induction l with
  | nil => simp [dictInsert, dictGet]
  | cons hd tl ih =>
    obtain ⟨k, v⟩ := hd
    by_cases h : k = key <;> simp [dictInsert, dictGet, h, ih]

theorem dictGet_insert_ne {α : Type} {key key' : String} (hne : key ≠ key') (value : α)
    (l : List (String × α)) : dictGet key' (dictInsert key value l) = dictGet key' l := by
  induction l with
  | nil => simp [dictInsert, dictGet, hne]
  | cons hd tl ih =>
    obtain ⟨k, v⟩ := hd
    by_cases h : k = key
    · subst h
      simp [dictInsert, dictGet, hne, ih]
    · by_cases h' : k = key' <;> simp [dictInsert, dictGet, h, h', ih, Ne.symm hne]

theorem dictGet_remove_self {α : Type} (key : String) (l : List (String × α))
    (hnod : (dictKeys l).Nodup) : dictGet key (dictRemove key l) = none := by
  induction l with
  | nil => simp [dictRemove, dictGet]
  | cons hd tl ih =>
    obtain ⟨k, v⟩ := hd
    simp only [dictKeys, List.map_cons, List.nodup_cons] at hnod
    by_cases h : k = key
    · subst h
      simp only [dictRemove, if_pos rfl]
      -- k is not a key of tl, so the lookup misses
      clear ih
      induction tl with
      | nil => simp [dictGet]
      | cons hd' tl' ih' =>
        obtain ⟨k', v'⟩ := hd'
        simp only [dictKeys, List.map_cons, List.mem_cons, List.nodup_cons] at hnod
        have hk' : k' ≠ k := fun h => hnod.1 (Or.inl h.symm)
        simp only [dictGet, if_neg hk']
        exact ih' ⟨fun hm => hnod.1 (Or.inr hm), hnod.2.2⟩
    · simp only [dictRemove, if_neg h, dictGet, if_neg h]
      exact ih hnod.2

theorem dictGet_remove_ne {α : Type} {key key' : String} (hne : key ≠ key')
    (l : List (String × α)) : dictGet key' (dictRemove key l) = dictGet key' l := by
  induction l with
  | nil => simp [dictRemove]
  | cons hd tl ih =>
    obtain ⟨k, v⟩ := hd
    by_cases h : k = key
    · subst h
      simp [dictRemove, dictGet, hne, ih]
    · by_cases h' : k = key' <;> simp [dictRemove, dictGet, h, h', ih, Ne.symm hne]

/-! ### Port registry (src/proxychain/port_registry.py) -/

structure PortEntry where
  socks_port : Nat
  http_port : Nat
deriving Repr, DecidableEq

structure PortRegistry where
  entries : List (String × PortEntry)
  next_socks : Nat
  next_http : Nat
  dirty : Bool
deriving Repr, DecidableEq

namespace PortRegistry

/-- A freshly constructed registry with no persisted state
(PortRegistry.__init__ with an absent registry file). -/
def init (start_socks_port start_http_port : Nat) : PortRegistry :=
  { entries := [], next_socks := start_socks_port, next_http := start_http_port, dirty := false }

def used_socks_ports (r : PortRegistry) : List Nat :=
  r.entries.map (fun e => e.2.socks_port)

def used_http_ports (r : PortRegistry) : List Nat :=
  r.entries.map (fun e => e.2.http_port)

/-- The while-loop of _next_available_socks / _next_available_http: advance the
candidate past every used port.  The loop terminates because only finitely many
ports are used; the fuel is one more than a bound on the remaining used ports. -/
def scan_free (used : List Nat) (candidate : Nat) (fuel : Nat) : Nat :=
  match fuel with
  | 0 => candidate
  | Nat.succ f => if candidate ∈ used then scan_free used (candidate + 1) f else candidate

def next_available_socks (r : PortRegistry) : Nat × PortRegistry :=
  let used := r.used_socks_ports
  let candidate := scan_free used r.next_socks (used.length + 1)
  (candidate, { r with next_socks := candidate + 1, dirty := true })

def next_available_http (r : PortRegistry) : Nat × PortRegistry :=
  let used := r.used_http_ports
  let candidate := scan_free used r.next_http (used.length + 1)
  (candidate, { r with next_http := candidate + 1, dirty := true })

def assign (r : PortRegistry) (node_id : String) : (Nat × Nat) × PortRegistry :=
  match dictGet node_id r.entries with
  | some entry => ((entry.socks_port, entry.http_port), r)
  | none =>
    let sp := r.next_available_socks
    let hp := sp.2.next_available_http
    ((sp.1, hp.1),
      { hp.2 with entries := dictInsert node_id ⟨sp.1, hp.1⟩ hp.2.entries, dirty := true })

def release (r : PortRegistry) (node_id : String) : PortRegistry :=
  if (dictGet node_id r.entries).isSome then
    { r with entries := dictRemove node_id r.entries, dirty := true }
  else r

/-- save() persists the payload (an external effect) and resets the dirty flag;
only the flag is visible in the embedded state. -/
def save (r : PortRegistry) : PortRegistry := { r with dirty := false }

end PortRegistry

/-- C2 helper: assign on a node that already holds a reservation returns that
pair and leaves the registry unchanged. -/
theorem assign_of_mem (r : PortRegistry) (node_id : String) (entry : PortEntry)
    (hmem : dictGet node_id r.entries = some entry) :
    r.assign node_id = ((entry.socks_port, entry.http_port), r) := by
  unfold PortRegistry.assign
  simp [hmem]

/-- C2 helper: after an assign, the assigned pair is recorded for the node. -/
theorem assign_records (r : PortRegistry) (node_id : String) :
    dictGet node_id (r.assign node_id).2.entries =
      some ⟨(r.assign node_id).1.1, (r.assign node_id).1.2⟩ := by
  unfold PortRegistry.assign
  cases h : dictGet node_id r.entries with
  | some entry => simp [h]
  | none => simp [h, dictGet_insert_self]

/-- C2: assign is idempotent.  If a node already holds a reservation, assign
returns exactly that pair and the registry (entries, counters, dirty flag) is
unchanged; consequently a second assign for any node returns the pair of the
first and leaves the post-first-assign registry untouched. -/
theorem assign_idempotent (r : PortRegistry) (node_id : String) (entry : PortEntry)
    (hmem : dictGet node_id r.entries = some entry) :
    r.assign node_id = ((entry.socks_port, entry.http_port), r) ∧
      ((r.assign node_id).2.assign node_id) = ((r.assign node_id).1, (r.assign node_id).2) := by
  refine ⟨assign_of_mem r node_id entry hmem, ?_⟩
  have hrec := assign_records r node_id
  rw [assign_of_mem _ _ _ hrec]

/-- Witness for C2 at a concrete registry. -/
theorem assign_idempotent_witness :
    let r0 : PortRegistry := PortRegistry.init 25000 26000
    let r1 := (r0.assign "node-a").2
    r1.assign "node-a" = ((25000, 26000), r1) ∧
      ((r1.assign "node-a").2.assign "node-a") =
        ((r1.assign "node-a").1, (r1.assign "node-a").2) := by
    have h := assign_idempotent ((PortRegistry.init 25000 26000).assign "node-a").2 "node-a"
      ⟨25000, 26000⟩ (by decide)
    exact ⟨h.1, h.2⟩

/-! ### Further dict lemmas -/

theorem dictGet_none_iff {α : Type} (key : String) (l : List (String × α)) :
    dictGet key l = none ↔ key ∉ dictKeys l := by
  induction l with
  | nil => simp [dictGet, dictKeys]
  | cons hd tl ih =>
    obtain ⟨k, v⟩ := hd
    by_cases h : k = key <;> simp [dictGet, dictKeys, h, ih] <;> tauto

theorem dictGet_mem {α : Type} {key : String} {v : α} {l : List (String × α)}
    (h : dictGet key l = some v) : (key, v) ∈ l := by
  induction l with
  | nil => simp [dictGet] at h
  | cons hd tl ih =>
    obtain ⟨k, w⟩ := hd
    by_cases hk : k = key
    · subst hk
      simp [dictGet] at h
      simp [h]
    · simp [dictGet, hk] at h
      exact List.mem_cons_of_mem _ (ih h)

theorem dictInsert_of_get_none {α : Type} {key : String} (value : α) {l : List (String × α)}
    (h : dictGet key l = none) : dictInsert key value l = l ++ [(key, value)] := by
  induction l with
  | nil => simp [dictInsert]
  | cons hd tl ih =>
    obtain ⟨k, v⟩ := hd
    by_cases hk : k = key
    · simp [dictGet, hk] at h
    · simp [dictGet, hk] at h
      simp [dictInsert, hk, ih h]

theorem dictRemove_sublist {α : Type} (key : String) (l : List (String × α)) :
    (dictRemove key l).Sublist l := by
  induction l with
  | nil => simp [dictRemove]
  | cons hd tl ih =>
    obtain ⟨k, v⟩ := hd
    by_cases h : k = key
    · simpa [dictRemove, h] using List.sublist_cons_self (k, v) tl
    · simpa [dictRemove, h] using List.Sublist.cons₂ (k, v) ih

/-- Two distinct keys of a pairwise list are related (in one direction). -/
theorem pairwise_of_dictGet {α : Type} {R : (String × α) → (String × α) → Prop}
    {l : List (String × α)} (hp : l.Pairwise R) {i j : String} {vi vj : α} (hij : i ≠ j)
    (hi : dictGet i l = some vi) (hj : dictGet j l = some vj) :
    R (i, vi) (j, vj) ∨ R (j, vj) (i, vi) := by
  induction l with
  | nil => simp [dictGet] at hi
  | cons hd tl ih =>
    obtain ⟨k, v⟩ := hd
    rw [List.pairwise_cons] at hp
    by_cases hki : k = i
    · subst hki
      simp [dictGet] at hi
      subst hi
      have hkj : ¬(k = j) := hij
      simp [dictGet, hkj] at hj
      exact Or.inl (hp.1 _ (dictGet_mem hj))
    · by_cases hkj : k = j
      · subst hkj
        simp [dictGet] at hj
        subst hj
        simp [dictGet, hki] at hi
        exact Or.inr (hp.1 _ (dictGet_mem hi))
      · simp [dictGet, hki] at hi
        simp [dictGet, hkj] at hj
        exact ih hp.2 hi hj

/-! ### Properties of the port scan -/

namespace PortRegistry

theorem scan_free_ge (used : List Nat) :
    ∀ (fuel candidate : Nat), candidate ≤ scan_free used candidate fuel := by
  intro fuel
  induction fuel with
  | zero => intro c; simp [scan_free]
  | succ f ih =>
    intro c
    simp only [scan_free]
    by_cases h : c ∈ used
    · simp only [if_pos h]
      exact le_trans (Nat.le_succ c) (ih (c + 1))
    · simp [h]

theorem countP_ge_succ_lt {used : List Nat} {c : Nat} (hmem : c ∈ used) :
    used.countP (fun x => decide (c + 1 ≤ x)) < used.countP (fun x => decide (c ≤ x)) := by
  induction used with
  | nil => simp at hmem
  | cons x t ih =>
    rw [List.countP_cons, List.countP_cons]
    have hmono : t.countP (fun y => decide (c + 1 ≤ y)) ≤ t.countP (fun y => decide (c ≤ y)) :=
      List.countP_mono_left (fun a _ ha => by
        simp only [decide_eq_true_eq] at ha ⊢
        omega)
    rcases List.mem_cons.mp hmem with hx | ht
    · subst hx
      have h1 : ¬(c + 1 ≤ c) := by omega
      simp only [decide_eq_true_eq, h1, if_false, le_refl, if_true]
      omega
    · have hstrict := ih ht
      by_cases hx1 : c + 1 ≤ x
      · have hx2 : c ≤ x := by omega
        simp only [decide_eq_true_eq, hx1, hx2, if_true]
        omega
      · by_cases hx2 : c ≤ x <;>
          simp only [decide_eq_true_eq, hx1, hx2, if_true, if_false] <;> omega

theorem scan_free_not_mem (used : List Nat) :
    ∀ (fuel candidate : Nat), used.countP (fun x => decide (candidate ≤ x)) < fuel →
      scan_free used candidate fuel ∉ used := by
  intro fuel
  induction fuel with
  | zero => intro c h; omega
  | succ f ih =>
    intro c hcount
    simp only [scan_free]
    by_cases h : c ∈ used
    · simp only [if_pos h]
      apply ih
      have := countP_ge_succ_lt h
      omega
    · simp [h]

theorem next_available_socks_spec (r : PortRegistry) :
    r.next_available_socks.1 ∉ r.used_socks_ports ∧
      r.next_socks ≤ r.next_available_socks.1 ∧
      r.next_available_socks.2 =
        { r with next_socks := r.next_available_socks.1 + 1, dirty := true } := by
  unfold next_available_socks
  refine ⟨?_, scan_free_ge _ _ _, rfl⟩
  apply scan_free_not_mem
  calc r.used_socks_ports.countP (fun x => decide (r.next_socks ≤ x))
      ≤ r.used_socks_ports.length := List.countP_le_length _
    _ < r.used_socks_ports.length + 1 := Nat.lt_succ_self _

theorem next_available_http_spec (r : PortRegistry) :
    r.next_available_http.1 ∉ r.used_http_ports ∧
      r.next_http ≤ r.next_available_http.1 ∧
      r.next_available_http.2 =
        { r with next_http := r.next_available_http.1 + 1, dirty := true } := by
  unfold next_available_http
  refine ⟨?_, scan_free_ge _ _ _, rfl⟩
  apply scan_free_not_mem
  calc r.used_http_ports.countP (fun x => decide (r.next_http ≤ x))
      ≤ r.used_http_ports.length := List.countP_le_length _
    _ < r.used_http_ports.length + 1 := Nat.lt_succ_self _

/-! ### Registry operations and the reachability invariant -/

/-- One registry operation, as issued by the manager. -/
inductive RegOp where
  | assignOp (node_id : String)
  | releaseOp (node_id : String)
deriving Repr, DecidableEq

def applyOp (r : PortRegistry) : RegOp → PortRegistry
  | .assignOp n => (r.assign n).2
  | .releaseOp n => r.release n

def applyOps (r : PortRegistry) (ops : List RegOp) : PortRegistry :=
  ops.foldl applyOp r

/-- The registry invariant: keys are unique and any two entries use distinct
socks ports and distinct http ports. -/
def Inv (r : PortRegistry) : Prop :=
  (dictKeys r.entries).Nodup ∧
    r.entries.Pairwise
      (fun a b => a.2.socks_port ≠ b.2.socks_port ∧ a.2.http_port ≠ b.2.http_port)

theorem Inv_init (s h : Nat) : Inv (init s h) := by
  constructor <;> simp [init, dictKeys]

theorem Inv_assign {r : PortRegistry} (hinv : Inv r) (n : String) : Inv (r.assign n).2 := by
  unfold assign
  cases hget : dictGet n r.entries with
  | some e => simpa [hget] using hinv
  | none =>
    simp only [hget]
    obtain ⟨hsp, _, hseq⟩ := next_available_socks_spec r
    obtain ⟨hhp, _, hheq⟩ := next_available_http_spec r.next_available_socks.2
    have hentries1 : r.next_available_socks.2.entries = r.entries := by rw [hseq]
    have hentries2 : r.next_available_socks.2.next_available_http.2.entries = r.entries := by
      rw [hheq, hentries1]
    constructor
    · simp only [hentries2, dictInsert_of_get_none _ hget, dictKeys, List.map_append]
      rw [List.nodup_append]
      refine ⟨hinv.1, by simp, ?_⟩
      intro a ha
      simp only [List.map_cons, List.map_nil, List.mem_singleton]
      intro hb
      rw [hb] at ha
      exact absurd ha ((dictGet_none_iff n r.entries).mp hget)
    · simp only [hentries2, dictInsert_of_get_none _ hget]
      rw [List.pairwise_append]
      refine ⟨hinv.2, List.pairwise_singleton _ _, ?_⟩
      intro a ha b hb
      simp only [List.mem_singleton] at hb
      subst hb
      have hhp' : r.next_available_socks.2.next_available_http.1 ∉ r.used_http_ports := by
        have : r.next_available_socks.2.used_http_ports = r.used_http_ports := by
          unfold used_http_ports
          rw [hentries1]
        rwa [this] at hhp
      constructor
      · intro hc
        exact hsp (List.mem_map.mpr ⟨a, ha, hc⟩)
      · intro hc
        exact hhp' (List.mem_map.mpr ⟨a, ha, hc⟩)

theorem Inv_release {r : PortRegistry} (hinv : Inv r) (n : String) : Inv (r.release n) := by
  unfold release
  by_cases h : (dictGet n r.entries).isSome <;> simp only [h, if_true, if_false]
  · constructor
    · exact ((dictRemove_sublist n r.entries).map Prod.fst).nodup hinv.1
    · exact hinv.2.sublist (dictRemove_sublist n r.entries)
  · exact hinv

theorem Inv_applyOps (r : PortRegistry) (hinv : Inv r) (ops : List RegOp) :
    Inv (r.applyOps ops) := by
  induction ops generalizing r with
  | nil => exact hinv
  | cons op rest ih =>
    cases op with
    | assignOp n => exact ih _ (Inv_assign hinv n)
    | releaseOp n => exact ih _ (Inv_release hinv n)

end PortRegistry

/-- C3: no port collision.  In every registry state reachable from the empty
initial registry by any sequence of assign and release operations, two distinct
node ids holding reservations have distinct socks ports and distinct http
ports. -/
theorem no_port_collision (start_socks start_http : Nat) (ops : List PortRegistry.RegOp)
    (i j : String) (ei ej : PortEntry) (hij : i ≠ j)
    (hi : dictGet i ((PortRegistry.init start_socks start_http).applyOps ops).entries = some ei)
    (hj : dictGet j ((PortRegistry.init start_socks start_http).applyOps ops).entries = some ej) :
    ei.socks_port ≠ ej.socks_port ∧ ei.http_port ≠ ej.http_port := by
  have hinv := PortRegistry.Inv_applyOps _ (PortRegistry.Inv_init start_socks start_http) ops
  rcases pairwise_of_dictGet hinv.2 hij hi hj with h | h
  · exact h
  · exact ⟨h.1.symm, h.2.symm⟩

/-- Witness for C3: two assigns from a fresh registry yield distinct pairs. -/
theorem no_port_collision_witness :
    "a" ≠ "b" ∧
      dictGet "a" ((PortRegistry.init 25000 26000).applyOps
        [PortRegistry.RegOp.assignOp "a", PortRegistry.RegOp.assignOp "b"]).entries =
          some ⟨25000, 26000⟩ ∧
      dictGet "b" ((PortRegistry.init 25000 26000).applyOps
        [PortRegistry.RegOp.assignOp "a", PortRegistry.RegOp.assignOp "b"]).entries =
          some ⟨25001, 26001⟩ ∧
      ((25000 : Nat) ≠ 25001 ∧ (26000 : Nat) ≠ 26001) := by
  refine ⟨by decide, by decide, by decide, ?_⟩
  exact no_port_collision 25000 26000
    [PortRegistry.RegOp.assignOp "a", PortRegistry.RegOp.assignOp "b"]
    "a" "b" ⟨25000, 26000⟩ ⟨25001, 26001⟩ (by decide) (by decide) (by decide)

/-! ### Release semantics and port reuse (C6) -/

namespace PortRegistry

/-- The pairs returned by a sequence of assign calls starting from r. -/
def assign_trace (r : PortRegistry) : List String → List (Nat × Nat)
  | [] => []
  | n :: rest => (r.assign n).1 :: assign_trace (r.assign n).2 rest

/-- Lower bound on every reserved port and on the next-candidate counters. -/
def PortsBound (r : PortRegistry) (bs bh : Nat) : Prop :=
  (∀ e ∈ r.entries, bs ≤ e.2.socks_port ∧ bh ≤ e.2.http_port) ∧
    bs ≤ r.next_socks ∧ bh ≤ r.next_http

theorem release_entries_removed {r : PortRegistry} (hnod : (dictKeys r.entries).Nodup)
    (n : String) : dictGet n (r.release n).entries = none := by
  unfold release
  cases hget : dictGet n r.entries with
  | none => simpa [hget] using hget
  | some e => simp [hget, dictGet_remove_self n r.entries hnod]

theorem release_counters (r : PortRegistry) (n : String) :
    (r.release n).next_socks = r.next_socks ∧ (r.release n).next_http = r.next_http := by
  unfold release
  by_cases h : (dictGet n r.entries).isSome <;> simp [h]

theorem assign_bound {r : PortRegistry} {bs bh : Nat} (hb : PortsBound r bs bh) (n : String) :
    PortsBound (r.assign n).2 bs bh ∧ bs ≤ (r.assign n).1.1 ∧ bh ≤ (r.assign n).1.2 := by
  obtain ⟨hent, hns, hnh⟩ := hb
  unfold assign
  cases hget : dictGet n r.entries with
  | some e =>
    simp only [hget]
    exact ⟨⟨hent, hns, hnh⟩, (hent _ (dictGet_mem hget)).1, (hent _ (dictGet_mem hget)).2⟩
  | none =>
    simp only [hget]
    obtain ⟨-, hsp_ge, hseq⟩ := next_available_socks_spec r
    obtain ⟨-, hhp_ge, hheq⟩ := next_available_http_spec r.next_available_socks.2
    have hentries2 : r.next_available_socks.2.next_available_http.2.entries = r.entries := by
      rw [hheq, hseq]
    have hbs : bs ≤ r.next_available_socks.1 := le_trans hns hsp_ge
    have hbh : bh ≤ r.next_available_socks.2.next_available_http.1 := by
      refine le_trans hnh (le_trans ?_ hhp_ge)
      rw [hseq]
    have hget2 : dictGet n r.next_available_socks.2.next_available_http.2.entries = none := by
      rw [hentries2]; exact hget
    refine ⟨⟨?_, ?_, ?_⟩, hbs, hbh⟩
    · intro e he
      simp only [hentries2, dictInsert_of_get_none _ hget, List.mem_append,
        List.mem_singleton] at he
      rcases he with he | he
      · exact hent _ he
      · subst he
        exact ⟨hbs, hbh⟩
    · show bs ≤ r.next_available_socks.2.next_available_http.2.next_socks
      rw [hheq, hseq]
      exact le_trans hbs (Nat.le_succ _)
    · show bh ≤ r.next_available_socks.2.next_available_http.2.next_http
      rw [hheq]
      exact le_trans hbh (Nat.le_succ _)

theorem assign_trace_bound {r : PortRegistry} {bs bh : Nat} (hb : PortsBound r bs bh)
    (ids : List String) : ∀ p ∈ r.assign_trace ids, bs ≤ p.1 ∧ bh ≤ p.2 := by
  induction ids generalizing r with
  | nil => simp [assign_trace]
  | cons n rest ih =>
    intro p hp
    simp only [assign_trace, List.mem_cons] at hp
    rcases hp with hp | hp
    · subst hp
      exact ⟨(assign_bound hb n).2.1, (assign_bound hb n).2.2⟩
    · exact ih (assign_bound hb n).1 p hp

end PortRegistry

/-- C6 counterexample: from a fresh registry seeded at (100, 200), assign node
"a" (receiving the pair (100, 200)) and release it.  No sequence of subsequent
assign calls ever returns port 100 (socks) or port 200 (http) again: the claim
that some future allocation returns a port of the released pair is false. -/
theorem released_ports_reused_counterexample :
    ¬ ∃ ids : List String, ∃ p ∈
      ((((PortRegistry.init 100 200).assign "a").2.release "a").assign_trace ids),
        p.1 = 100 ∨ p.2 = 200 := by
  rintro ⟨ids, p, hp, hcase⟩
  have hbound : PortRegistry.PortsBound
      (((PortRegistry.init 100 200).assign "a").2.release "a") 101 201 := by
    refine ⟨?_, by decide, by decide⟩
    intro e he
    simp [PortRegistry.init, PortRegistry.assign, PortRegistry.release, dictGet,
      PortRegistry.next_available_socks, PortRegistry.next_available_http,
      PortRegistry.scan_free, PortRegistry.used_socks_ports, PortRegistry.used_http_ports,
      dictInsert, dictRemove] at he
  have := PortRegistry.assign_trace_bound hbound ids p hp
  rcases hcase with h | h <;> omega

/-! ### JSON storage (src/proxychain/storage.py)

The filesystem is modelled as an association list from paths to file contents.
json.load and json.dump are Python-library calls at the embedding boundary and
are passed in as functions: parse returns none on a json.JSONDecodeError, dump
serialises a document.  Path.rename / Path.replace become remove-then-insert. -/

structure JsonStorage where
  path : String
deriving Repr, DecidableEq

namespace JsonStorage

/-- path.with_suffix(path.suffix + ".invalid"); for the single-extension paths
the registry uses (for example port_registry.json) this appends ".invalid". -/
def invalid_path (s : JsonStorage) : String := s.path ++ ".invalid"

/-- path.with_suffix(path.suffix + ".tmp"). -/
def temp_path (s : JsonStorage) : String := s.path ++ ".tmp"

def load {Doc : Type} (parse : String → Option Doc) (s : JsonStorage)
    (fs : List (String × String)) (default : Doc) : Doc × List (String × String) :=
  match dictGet s.path fs with
  | none => (default, fs)
  | some content =>
    match parse content with
    | some doc => (doc, fs)
    | none => (default, dictInsert s.invalid_path content (dictRemove s.path fs))

/-- First half of save(): write the serialized document to the temp path. -/
def write_temp {Doc : Type} (dump : Doc → String) (s : JsonStorage)
    (fs : List (String × String)) (data : Doc) : List (String × String) :=
  dictInsert s.temp_path (dump data) fs

/-- Second half of save(): temp_path.replace(self.path). -/
def replace_temp (s : JsonStorage) (fs : List (String × String)) : List (String × String) :=
  match dictGet s.temp_path fs with
  | none => fs
  | some content => dictInsert s.path content (dictRemove s.temp_path fs)

def save {Doc : Type} (dump : Doc → String) (s : JsonStorage)
    (fs : List (String × String)) (data : Doc) : List (String × String) :=
  s.replace_temp (write_temp dump s fs data)

theorem path_ne_append (p suf : String) (h : suf ≠ "") : p ≠ p ++ suf := by
  intro he
  have hlen : p.length = p.length + suf.length := by
    conv_lhs => rw [he]
    exact String.length_append p suf
  have hzero : suf.length = 0 := by omega
  apply h
  cases suf with
  | mk data =>
    have hd : data = [] := List.length_eq_zero.mp hzero
    simp [hd]

theorem path_ne_invalid (s : JsonStorage) : s.path ≠ s.invalid_path :=
  path_ne_append s.path ".invalid" (by decide)

theorem path_ne_temp (s : JsonStorage) : s.path ≠ s.temp_path :=
  path_ne_append s.path ".tmp" (by decide)

end JsonStorage

theorem dictKeys_insert_nodup {α : Type} {l : List (String × α)} (hnod : (dictKeys l).Nodup)
    (key : String) (value : α) : (dictKeys (dictInsert key value l)).Nodup := by
  induction l with
  | nil => simp [dictInsert, dictKeys]
  | cons hd tl ih =>
    obtain ⟨k, v⟩ := hd
    simp only [dictKeys, List.map_cons, List.nodup_cons] at hnod
    by_cases h : k = key
    · simpa [dictInsert, h, dictKeys] using hnod
    · simp only [dictInsert, if_neg h, dictKeys, List.map_cons, List.nodup_cons]
      refine ⟨?_, ih hnod.2⟩
      intro hmem
      -- keys of an insert are the old keys possibly extended with the new key
      have : k ∈ dictKeys tl ∨ k = key := by
        clear ih hnod
        induction tl with
        | nil => simpa [dictInsert, dictKeys] using hmem
        | cons hd' tl' ih' =>
          obtain ⟨k', v'⟩ := hd'
          by_cases h' : k' = key
          · simp only [dictInsert, if_pos h', dictKeys, List.map_cons] at hmem
            simpa [dictKeys] using Or.inl (by simpa using hmem)
          · simp only [dictInsert, if_neg h', dictKeys, List.map_cons, List.mem_cons] at hmem
            rcases hmem with hmem | hmem
            · exact Or.inl (by simp [dictKeys, hmem])
            · rcases ih' hmem with hin | hin
              · exact Or.inl (List.mem_cons_of_mem _ hin)
              · exact Or.inr hin
      rcases this with hin | hin
      · exact hnod.1 hin
      · exact h hin

/-- C10: storage degradation and atomic replace.  A missing file loads as the
supplied default with the filesystem untouched; a file that fails to parse
loads as the default while its content is preserved under the renamed
".invalid" path (not deleted) and removed from the original path; writing the
temp file leaves the target untouched, and the completed save installs the
serialized document at the target with the temp file gone. -/
theorem storage_contract {Doc : Type} (parse : String → Option Doc) (dump : Doc → String)
    (s : JsonStorage) (fs : List (String × String)) (default : Doc)
    (hnod : (dictKeys fs).Nodup) :
    (dictGet s.path fs = none → s.load parse fs default = (default, fs)) ∧
      (∀ content, dictGet s.path fs = some content → parse content = none →
        (s.load parse fs default).1 = default ∧
          dictGet s.invalid_path (s.load parse fs default).2 = some content ∧
          dictGet s.path (s.load parse fs default).2 = none) ∧
      (∀ data : Doc,
        dictGet s.path (JsonStorage.write_temp dump s fs data) = dictGet s.path fs ∧
          dictGet s.path (s.save dump fs data) = some (dump data) ∧
          dictGet s.temp_path (s.save dump fs data) = none) := by
  refine ⟨?_, ?_, ?_⟩
  · intro hmiss
    unfold JsonStorage.load
    simp [hmiss]
  · intro content hhit hfail
    unfold JsonStorage.load
    simp only [hhit, hfail]
    refine ⟨by trivial, dictGet_insert_self _ _ _, ?_⟩
    rw [dictGet_insert_ne (Ne.symm s.path_ne_invalid) _ _]
    exact dictGet_remove_self s.path fs hnod
  · intro data
    have htmp_target : dictGet s.path (JsonStorage.write_temp dump s fs data) =
        dictGet s.path fs := by
      unfold JsonStorage.write_temp
      exact dictGet_insert_ne (Ne.symm s.path_ne_temp) _ _
    refine ⟨htmp_target, ?_, ?_⟩
    · unfold JsonStorage.save JsonStorage.replace_temp JsonStorage.write_temp
      rw [dictGet_insert_self]
      exact dictGet_insert_self _ _ _
    · unfold JsonStorage.save JsonStorage.replace_temp JsonStorage.write_temp
      rw [dictGet_insert_self]
      rw [dictGet_insert_ne s.path_ne_temp _ _]
      exact dictGet_remove_self s.temp_path _ (dictKeys_insert_nodup hnod _ _)

/-- Witness for C10 with a concrete one-file filesystem holding a corrupt
document. -/
theorem storage_contract_witness :
    ((JsonStorage.mk "reg.json").load (fun c => if c = "ok" then some 7 else none)
        [("reg.json", "oops")] 0).1 = 0 ∧
      dictGet "reg.json.invalid"
        ((JsonStorage.mk "reg.json").load (fun c => if c = "ok" then some 7 else none)
          [("reg.json", "oops")] 0).2 = some "oops" ∧
      dictGet "reg.json"
        ((JsonStorage.mk "reg.json").save (fun n => toString (n + 1))
          [("reg.json", "oops")] 4) = some "5" := by
  have h := storage_contract (fun c => if c = "ok" then some 7 else none)
    (fun n => toString (n + 1)) (JsonStorage.mk "reg.json") [("reg.json", "oops")] 0
    (by decide)
  obtain ⟨-, hload, hsave⟩ := h
  have h2 := hload "oops" (by decide) (by decide)
  exact ⟨h2.1, h2.2.1, (hsave 4).2.1⟩

/-! ### Subscription text parsing (src/proxychain/subscriptions.py)

Text is handled at the character-list level.  Python whitespace handling
(str.split(), str.strip(), str.splitlines()) is modelled for the ASCII
whitespace characters; base64.b64decode and bytes.decode("utf-8", "ignore")
are Python-library calls modelled for well-formed inputs (invalid characters
discarded, invalid byte sequences skipped); yaml.safe_load is passed in as a
function at the library boundary. -/

def isPySpace (c : Char) : Bool :=
  c == ' ' || c == '\t' || c == '\n' || c == '\x0b' || c == '\x0c' || c == '\r'

/-- str.strip(): drop whitespace from both ends. -/
def pyStrip (l : List Char) : List Char :=
  ((l.dropWhile isPySpace).reverse.dropWhile isPySpace).reverse

/-- str.splitlines() for the line terminators that occur in subscription text
(LF, CR, CRLF); a trailing terminator produces no extra empty line. -/
def splitlinesAux : List Char → List Char → List (List Char)
  | [], acc => if acc.isEmpty then [] else [acc.reverse]
  | '\r' :: '\n' :: rest, acc => acc.reverse :: splitlinesAux rest []
  | '\r' :: rest, acc => acc.reverse :: splitlinesAux rest []
  | '\n' :: rest, acc => acc.reverse :: splitlinesAux rest []
  | c :: rest, acc => splitlinesAux rest (c :: acc)

def splitlines (l : List Char) : List (List Char) := splitlinesAux l []

def isStdB64Char (c : Char) : Bool :=
  decide (('A' ≤ c ∧ c ≤ 'Z') ∨ ('a' ≤ c ∧ c ≤ 'z') ∨ ('0' ≤ c ∧ c ≤ '9') ∨
    c = '+' ∨ c = '/')

/-- The character class of the fullmatch regexes in subscriptions.py:
[A-Za-z0-9+/=_-]. -/
def isB64BlobChar (c : Char) : Bool :=
  decide (('A' ≤ c ∧ c ≤ 'Z') ∨ ('a' ≤ c ∧ c ≤ 'z') ∨ ('0' ≤ c ∧ c ≤ '9') ∨
    c = '+' ∨ c = '/' ∨ c = '=' ∨ c = '_' ∨ c = '-')

/-- re.fullmatch(r"[A-Za-z0-9+/=_-]+", s). -/
def b64FullMatch (l : List Char) : Bool := !l.isEmpty && l.all isB64BlobChar

def b64Val (c : Char) : Option Nat :=
  if 'A' ≤ c ∧ c ≤ 'Z' then some (c.toNat - 'A'.toNat)
  else if 'a' ≤ c ∧ c ≤ 'z' then some (c.toNat - 'a'.toNat + 26)
  else if '0' ≤ c ∧ c ≤ '9' then some (c.toNat - '0'.toNat + 52)
  else if c = '+' then some 62
  else if c = '/' then some 63
  else none

/-- Decode base64 quads into bytes; '=' padding is only legal at the end. -/
def b64DecodeGroups : List Char → Option (List Nat)
  | [] => some []
  | [a, b, '=', '='] => do
    let va ← b64Val a
    let vb ← b64Val b
    some [va * 4 + vb / 16]
  | [a, b, c, '='] => do
    let va ← b64Val a
    let vb ← b64Val b
    let vc ← b64Val c
    some [va * 4 + vb / 16, vb % 16 * 16 + vc / 4]
  | a :: b :: c :: d :: rest => do
    let va ← b64Val a
    let vb ← b64Val b
    let vc ← b64Val c
    let vd ← b64Val d
    let tail ← b64DecodeGroups rest
    some ((va * 4 + vb / 16) :: (vb % 16 * 16 + vc / 4) :: (vc % 4 * 64 + vd) :: tail)
  | _ => none

/-- _b64_decode: strip, map the urlsafe alphabet onto the standard one, pad to
a multiple of four, then base64.b64decode (which discards characters outside
the alphabet and fails on a bad final length). -/
def pyB64Decode (value : List Char) : Option (List Nat) :=
  let cleaned := (pyStrip value).map fun c => if c = '-' then '+' else if c = '_' then '/' else c
  let padded := cleaned ++ List.replicate ((4 - cleaned.length % 4) % 4) '='
  let filtered := padded.filter fun c => isStdB64Char c || c == '='
  if filtered.length % 4 = 0 then b64DecodeGroups filtered else none

def isUtf8Cont (b : Nat) : Bool := decide (0x80 ≤ b ∧ b < 0xC0)

/-- bytes.decode("utf-8", errors="ignore"): decode well-formed sequences and
skip bytes that do not start one.  Every step consumes at least one byte, so
fuel equal to the byte count never runs out; fuel keeps the recursion
structural. -/
def utf8DecodeIgnoreAux : Nat → List Nat → List Char
  | 0, _ => []
  | _ + 1, [] => []
  | fuel + 1, b1 :: rest =>
    if b1 < 0x80 then Char.ofNat b1 :: utf8DecodeIgnoreAux fuel rest
    else if 0xC2 ≤ b1 ∧ b1 ≤ 0xDF then
      match rest with
      | b2 :: rest2 =>
        if isUtf8Cont b2 then
          Char.ofNat ((b1 - 0xC0) * 64 + (b2 - 0x80)) :: utf8DecodeIgnoreAux fuel rest2
        else utf8DecodeIgnoreAux fuel (b2 :: rest2)
      | [] => []
    else if 0xE0 ≤ b1 ∧ b1 ≤ 0xEF then
      match rest with
      | b2 :: b3 :: rest3 =>
        if isUtf8Cont b2 && isUtf8Cont b3 then
          Char.ofNat ((b1 - 0xE0) * 4096 + (b2 - 0x80) * 64 + (b3 - 0x80)) ::
            utf8DecodeIgnoreAux fuel rest3
        else utf8DecodeIgnoreAux fuel (b2 :: b3 :: rest3)
      | _ => []
    else if 0xF0 ≤ b1 ∧ b1 ≤ 0xF4 then
      match rest with
      | b2 :: b3 :: b4 :: rest4 =>
        if isUtf8Cont b2 && isUtf8Cont b3 && isUtf8Cont b4 then
          Char.ofNat ((b1 - 0xF0) * 262144 + (b2 - 0x80) * 4096 + (b3 - 0x80) * 64 +
              (b4 - 0x80)) :: utf8DecodeIgnoreAux fuel rest4
        else utf8DecodeIgnoreAux fuel (b2 :: b3 :: b4 :: rest4)
      | _ => []
    else utf8DecodeIgnoreAux fuel rest

def utf8DecodeIgnore (l : List Nat) : List Char := utf8DecodeIgnoreAux l.length l

/-- _b64_decode followed by .decode("utf-8", errors="ignore"). -/
def pyB64DecodeStr (value : List Char) : Option (List Char) :=
  (pyB64Decode value).map utf8DecodeIgnore

/-- needle in hay (Python substring containment). -/
def subStrContains (hay needle : List Char) : Bool :=
  hay.tails.any fun t => needle.isPrefixOf t

/-- _maybe_decode_base64_blob. -/
def maybe_decode_base64_blob (payload : List Char) : List Char :=
  let compact := payload.filter fun c => !isPySpace c
  if compact.isEmpty then payload
  else if !b64FullMatch compact then payload
  else
    match pyB64DecodeStr compact with
    | some decoded =>
      if subStrContains decoded "ss://".data || subStrContains decoded "vmess://".data then
        decoded
      else payload
    | none => payload

/-- str.split(sep, 1): split at the first occurrence (none when absent). -/
def splitOnce (sep : Char) : List Char → Option (List Char × List Char)
  | [] => none
  | c :: rest =>
    if c = sep then some ([], rest)
    else (splitOnce sep rest).map fun p => (c :: p.1, p.2)

/-- _normalize_ss_uri. -/
def normalize_ss_uri (uri : List Char) : List Char :=
  let rest := uri.drop 5
  match splitOnce '@' rest with
  | some (userinfo, tail) =>
    if b64FullMatch userinfo && !userinfo.contains ':' then
      match pyB64DecodeStr userinfo with
      | some decoded =>
        if decoded.contains ':' && !decoded.contains '@' then
          "ss://".data ++ decoded ++ '@' :: tail
        else uri
      | none => uri
    else uri
  | none =>
    let base_part := rest.takeWhile (· ≠ '#')
    let suffix := rest.drop base_part.length
    if b64FullMatch base_part then
      match pyB64DecodeStr base_part with
      | some decoded =>
        if decoded.contains ':' && decoded.contains '@' then
          "ss://".data ++ decoded ++ suffix
        else uri
      | none => uri
    else uri

/-- _vmess_from_base64.  yaml.safe_load on the decoded payload is a library
call: safeLoad returns none for a parse failure or a non-dict result, and
otherwise the dict with values rendered through str(). -/
def vmess_from_base64 (safeLoad : List Char → Option (List (String × List Char)))
    (uri : List Char) : List Char :=
  let payload := uri.drop 8
  match pyB64DecodeStr payload with
  | none => uri
  | some raw =>
    match safeLoad raw with
    | none => uri
    | some data =>
      let server := pyStrip ((dictGet "add" data).getD "".data)
      let port := pyStrip ((dictGet "port" data).getD "".data)
      let uuid := pyStrip ((dictGet "id" data).getD "".data)
      let alter_raw := pyStrip ((dictGet "aid" data).getD "0".data)
      let alter_id := if alter_raw.isEmpty then "0".data else alter_raw
      if server.isEmpty || port.isEmpty || uuid.isEmpty then uri
      else
        "vmess://none:".data ++ uuid ++ '@' :: server ++ ':' :: port ++
          "?alterID=".data ++ alter_id

/-- The body of the _parse_lines loop for one raw line. -/
def parse_line (safeLoad : List Char → Option (List (String × List Char)))
    (raw : List Char) : Option (List Char) :=
  let line := pyStrip raw
  if line.isEmpty then none
  else if "#".data.isPrefixOf line then none
  else if "ss://".data.isPrefixOf line then
    some ("forward=".data ++ normalize_ss_uri line)
  else if "vmess://".data.isPrefixOf line then
    some ("forward=".data ++
      (if line.contains '@' then line else vmess_from_base64 safeLoad line))
  else none

/-- _parse_lines. -/
def parse_lines (safeLoad : List Char → Option (List (String × List Char)))
    (text : List Char) : List (List Char) :=
  (splitlines text).filterMap (parse_line safeLoad)

/-- The "\n".join plus trailing-newline normalisation at the end of
parse_txt_content. -/
def join_forwards (forwards : List (List Char)) : List Char :=
  let output := (forwards.intersperse ['\n']).join
  if !output.isEmpty && !(output.getLast? == some '\n') then output ++ ['\n'] else output

/-- parse_txt_content. -/
def parse_txt_content (safeLoad : List Char → Option (List (String × List Char)))
    (text : List Char) : List Char × Nat :=
  let text_to_parse := maybe_decode_base64_blob text
  let forwards := parse_lines safeLoad text_to_parse
  let forwards :=
    if forwards.isEmpty then
      match pyB64DecodeStr (text.filter fun c => !isPySpace c) with
      | some decoded => parse_lines safeLoad decoded
      | none => []
    else forwards
  (join_forwards forwards, forwards.length)

/-! ### C7: direct line parsing comes before any whole-blob decode -/

theorem mem_of_mem_splitlinesAux (l acc piece : List Char)
    (hp : piece ∈ splitlinesAux l acc) (c : Char) (hc : c ∈ piece) : c ∈ l ∨ c ∈ acc := by
  induction l, acc using splitlinesAux.induct generalizing piece with
  | case1 acc hac =>
    simp [splitlinesAux, hac] at hp
  | case2 acc hac =>
    simp only [splitlinesAux, if_neg hac, List.mem_singleton] at hp
    subst hp
    exact Or.inr (List.mem_reverse.mp hc)
  | case3 rest acc ih =>
    rw [splitlinesAux.eq_2] at hp
    rcases List.mem_cons.mp hp with hp | hp
    · subst hp
      exact Or.inr (List.mem_reverse.mp hc)
    · rcases ih piece hp hc with h | h
      · exact Or.inl (by simp [h])
      · simp at h
  | case4 rest acc hguard ih =>
    rw [splitlinesAux.eq_3 _ _ hguard] at hp
    rcases List.mem_cons.mp hp with hp | hp
    · subst hp
      exact Or.inr (List.mem_reverse.mp hc)
    · rcases ih piece hp hc with h | h
      · exact Or.inl (by simp [h])
      · simp at h
  | case5 rest acc ih =>
    rw [splitlinesAux.eq_4] at hp
    rcases List.mem_cons.mp hp with hp | hp
    · subst hp
      exact Or.inr (List.mem_reverse.mp hc)
    · rcases ih piece hp hc with h | h
      · exact Or.inl (by simp [h])
      · simp at h
  | case6 c' rest acc h1 h2 h3 ih =>
    rw [splitlinesAux.eq_5 _ _ _ h1 h2 h3] at hp
    rcases ih piece hp hc with h | h
    · exact Or.inl (List.mem_cons_of_mem _ h)
    · rcases List.mem_cons.mp h with h | h
      · exact Or.inl (by simp [h])
      · exact Or.inr h

theorem mem_of_mem_splitlines (text piece : List Char) (hp : piece ∈ splitlines text)
    (c : Char) (hc : c ∈ piece) : c ∈ text := by
  rcases mem_of_mem_splitlinesAux text [] piece hp c hc with h | h
  · exact h
  · simp at h

theorem mem_of_mem_pyStrip (l : List Char) (c : Char) (hc : c ∈ pyStrip l) : c ∈ l := by
  unfold pyStrip at hc
  have h1 := List.mem_reverse.mp hc
  have h2 := (List.dropWhile_sublist _).mem h1
  have h3 := List.mem_reverse.mp h2
  exact (List.dropWhile_sublist _).mem h3

theorem colon_of_parse_line {safeLoad : List Char → Option (List (String × List Char))}
    {raw out : List Char} (h : parse_line safeLoad raw = some out) : ':' ∈ raw := by
  unfold parse_line at h
  dsimp only at h
  split_ifs at h with h1 h2 h3 h4
  · apply mem_of_mem_pyStrip
    rcases List.isPrefixOf_iff_prefix.mp h3 with ⟨t, ht⟩
    rw [← ht]
    exact List.mem_append_left _ (by decide)
  · apply mem_of_mem_pyStrip
    rcases List.isPrefixOf_iff_prefix.mp h4 with ⟨t, ht⟩
    rw [← ht]
    exact List.mem_append_left _ (by decide)
  · apply mem_of_mem_pyStrip
    rcases List.isPrefixOf_iff_prefix.mp h4 with ⟨t, ht⟩
    rw [← ht]
    exact List.mem_append_left _ (by decide)

theorem colon_of_parse_lines_ne_nil {safeLoad : List Char → Option (List (String × List Char))}
    {text : List Char} (hne : parse_lines safeLoad text ≠ []) : ':' ∈ text := by
  unfold parse_lines at hne
  rw [Ne, List.filterMap_eq_nil] at hne
  push_neg at hne
  obtain ⟨piece, hpiece, hsome⟩ := hne
  obtain ⟨out, hout⟩ := Option.ne_none_iff_exists'.mp hsome
  exact mem_of_mem_splitlines text piece hpiece ':' (colon_of_parse_line hout)

theorem maybe_decode_of_colon {text : List Char} (hc : ':' ∈ text) :
    maybe_decode_base64_blob text = text := by
  unfold maybe_decode_base64_blob
  have hcc : ':' ∈ text.filter fun c => !isPySpace c :=
    List.mem_filter.mpr ⟨hc, by decide⟩
  have hnil : (text.filter fun c => !isPySpace c).isEmpty = false := by
    rcases hl : text.filter fun c => !isPySpace c with _ | ⟨x, xs⟩
    · rw [hl] at hcc
      simp at hcc
    · simp
  have hfm : b64FullMatch (text.filter fun c => !isPySpace c) = false := by
    unfold b64FullMatch
    cases hall : (text.filter fun c => !isPySpace c).all isB64BlobChar with
    | true =>
      have := List.all_eq_true.mp hall ':' hcc
      simp [isB64BlobChar] at this
    | false => simp
  simp [hnil, hfm]

/-- C7: direct per-line parsing is attempted first, and the whole-blob base64
decode happens only when it yields zero usable lines.  Whenever direct line
parsing of the input finds at least one usable ss:// or vmess:// line, the
blob pre-decode leaves the text unchanged (its base64 character-class check
cannot pass, since a usable line contains a colon), and parse_txt_content
returns exactly the joined direct parse with its count, without any whole-blob
substitution. -/
theorem parse_txt_direct_line_first
    (safeLoad : List Char → Option (List (String × List Char))) (text : List Char)
    (hne : parse_lines safeLoad text ≠ []) :
    maybe_decode_base64_blob text = text ∧
      parse_txt_content safeLoad text =
        (join_forwards (parse_lines safeLoad text), (parse_lines safeLoad text).length) := by
  have hmd := maybe_decode_of_colon (colon_of_parse_lines_ne_nil hne)
  refine ⟨hmd, ?_⟩
  unfold parse_txt_content
  rw [hmd]
  have hempty : (parse_lines safeLoad text).isEmpty = false := by
    rcases hl : parse_lines safeLoad text with _ | ⟨x, xs⟩
    · exact absurd hl hne
    · simp
  simp [hempty]

/-- Witness for C7 on a plaintext subscription line that resembles base64 in
no way being replaced. -/
theorem parse_txt_direct_line_first_witness :
    maybe_decode_base64_blob "ss://u:p@h:1\n".data = "ss://u:p@h:1\n".data ∧
      parse_txt_content (fun _ => none) "ss://u:p@h:1\n".data =
        (join_forwards (parse_lines (fun _ => none) "ss://u:p@h:1\n".data),
          (parse_lines (fun _ => none) "ss://u:p@h:1\n".data).length) :=
  parse_txt_direct_line_first (fun _ => none) "ss://u:p@h:1\n".data (by decide)

/-! ### C8: vmess base64 variant is try-validate-else-passthrough -/

theorem isEmpty_eq_false_of_ne_nil {α : Type} {l : List α} (h : l ≠ []) :
    l.isEmpty = false := by
  cases l with
  | nil => exact absurd rfl h
  | cons a t => rfl

/-- C8: for a vmess token, the base64-JSON decode path is taken exactly when
the token contains no literal @; the decoded payload must supply add, port and
id to produce the canonical URI, and on decode failure, a non-dict payload, or
a missing mandatory field the original token is passed through unchanged (the
function is total, so nothing raises and the token is later dropped as
unsupported). -/
theorem vmess_base64_handling
    (safeLoad : List Char → Option (List (String × List Char))) (line : List Char)
    (hs : pyStrip line = line) (hv : "vmess://".data.isPrefixOf line = true) :
    ('@' ∈ line → parse_line safeLoad line = some ("forward=".data ++ line)) ∧
      ('@' ∉ line →
        parse_line safeLoad line = some ("forward=".data ++ vmess_from_base64 safeLoad line)) ∧
      (pyB64DecodeStr (line.drop 8) = none → vmess_from_base64 safeLoad line = line) ∧
      (∀ raw, pyB64DecodeStr (line.drop 8) = some raw → safeLoad raw = none →
        vmess_from_base64 safeLoad line = line) ∧
      (∀ raw data, pyB64DecodeStr (line.drop 8) = some raw → safeLoad raw = some data →
        (pyStrip ((dictGet "add" data).getD "".data) = [] ∨
          pyStrip ((dictGet "port" data).getD "".data) = [] ∨
          pyStrip ((dictGet "id" data).getD "".data) = []) →
        vmess_from_base64 safeLoad line = line) ∧
      (∀ raw data, pyB64DecodeStr (line.drop 8) = some raw → safeLoad raw = some data →
        pyStrip ((dictGet "add" data).getD "".data) ≠ [] →
        pyStrip ((dictGet "port" data).getD "".data) ≠ [] →
        pyStrip ((dictGet "id" data).getD "".data) ≠ [] →
        vmess_from_base64 safeLoad line =
          "vmess://none:".data ++ pyStrip ((dictGet "id" data).getD "".data) ++
            '@' :: pyStrip ((dictGet "add" data).getD "".data) ++
            ':' :: pyStrip ((dictGet "port" data).getD "".data) ++
            "?alterID=".data ++
            (if (pyStrip ((dictGet "aid" data).getD "0".data)).isEmpty then "0".data
              else pyStrip ((dictGet "aid" data).getD "0".data))) := by
  obtain ⟨t, ht⟩ := List.isPrefixOf_iff_prefix.mp hv
  have hnonempty : line.isEmpty = false := by rw [← ht]; rfl
  have hhash : ("#".data.isPrefixOf line) = false := by rw [← ht]; rfl
  have hss : ("ss://".data.isPrefixOf line) = false := by rw [← ht]; rfl
  refine ⟨?_, ?_, ?_, ?_, ?_, ?_⟩
  · intro hat
    unfold parse_line
    simp [hs, hnonempty, hhash, hss, hv, hat]
  · intro hat
    unfold parse_line
    simp [hs, hnonempty, hhash, hss, hv, hat]
  · intro hdec
    unfold vmess_from_base64
    simp [hdec]
  · intro raw hdec hsl
    unfold vmess_from_base64
    simp [hdec, hsl]
  · intro raw data hdec hsl hfield
    unfold vmess_from_base64
    rcases hfield with h | h | h <;> simp [hdec, hsl, h]
  · intro raw data hdec hsl hadd hport hid
    unfold vmess_from_base64
    simp only [hdec, hsl, isEmpty_eq_false_of_ne_nil hadd, isEmpty_eq_false_of_ne_nil hport,
      isEmpty_eq_false_of_ne_nil hid, Bool.or_self, Bool.false_or, Bool.or_false,
      Bool.false_eq_true, if_neg, if_false]

/-- Witness for C8: payload "ag==" decodes to "j"; one safeLoad interpretation
supplies the three mandatory fields and produces the canonical form, the other
rejects and the token passes through unchanged. -/
theorem vmess_base64_handling_witness :
    parse_line
        (fun raw => if raw = "j".data then
          some [("add", "h".data), ("port", "1".data), ("id", "u".data)] else none)
        "vmess://ag==".data =
      some ("forward=vmess://none:u@h:1?alterID=0".data) ∧
      vmess_from_base64 (fun _ => none) "vmess://ag==".data = "vmess://ag==".data := by
  have h1 := vmess_base64_handling
    (fun raw => if raw = "j".data then
      some [("add", "h".data), ("port", "1".data), ("id", "u".data)] else none)
    "vmess://ag==".data (by decide) (by decide)
  have h2 := vmess_base64_handling (fun _ => none) "vmess://ag==".data (by decide) (by decide)
  constructor
  · have hcanon := h1.2.2.2.2.2 "j".data [("add", "h".data), ("port", "1".data), ("id", "u".data)]
      (by decide) (by decide) (by decide) (by decide) (by decide)
    have hline := h1.2.1 (by decide)
    rw [hline, hcanon]
    decide
  · exact h2.2.2.2.1 "j".data (by decide) rfl

/-! ### Data model (src/proxychain/models.py)

Timestamps are naturals (utcnow() of each manager operation is passed in as
the parameter now; EPOCH is 0).  The opaque raw dict of ProxyNode is a
pass-through never read by the embedded operations and is omitted. -/

structure ProxyNode where
  uid : String
  backend_uri : String
  schema : String
  server : String
  port : Nat
  country : Option String
  country_code : Option String
  name : Option String
  source : String
  created_at : Nat
  updated_at : Nat
deriving Repr, DecidableEq

structure ProxyEndpoint where
  id : String
  node_uid : String
  protocol : String
  host : String
  port : Nat
  public_host : String
  country : Option String
  country_code : Option String
  name : Option String
  available : Bool
  created_at : Nat
  updated_at : Nat
  last_checked : Option Nat
deriving Repr, DecidableEq

structure CacheEntry where
  endpoint_ids : List String
  expires_at : Nat
deriving Repr, DecidableEq

/-! ### Selection cache (src/proxychain/cache.py) -/

/-- Cache keys are the tuples (tuple(sorted(protocols)), country.lower(),
count) built in ProxyManager.select. -/
abbrev CacheKey := List String × String × Int

structure SelectionCache where
  ttl : Nat
  entries : List (CacheKey × CacheEntry)
deriving Repr, DecidableEq

namespace SelectionCache

/-- SelectionCache.__init__: the TTL is clamped to at least one second. -/
def init (ttl_seconds : Nat) : SelectionCache := { ttl := max ttl_seconds 1, entries := [] }

def lookup (key : CacheKey) : List (CacheKey × CacheEntry) → Option CacheEntry
  | [] => none
  | (k, v) :: rest => if k = key then some v else lookup key rest

def insertEntry (key : CacheKey) (value : CacheEntry) :
    List (CacheKey × CacheEntry) → List (CacheKey × CacheEntry)
  | [] => [(key, value)]
  | (k, v) :: rest =>
    if k = key then (k, value) :: rest else (k, v) :: insertEntry key value rest

def removeEntry (key : CacheKey) :
    List (CacheKey × CacheEntry) → List (CacheKey × CacheEntry)
  | [] => []
  | (k, v) :: rest => if k = key then rest else (k, v) :: removeEntry key rest

/-- get: lazy expiry — a present entry whose expires_at has passed is deleted
and reported as a miss. -/
def get (c : SelectionCache) (key : CacheKey) (now : Nat) :
    Option CacheEntry × SelectionCache :=
  match lookup key c.entries with
  | none => (none, c)
  | some entry =>
    if entry.expires_at ≤ now then (none, { c with entries := removeEntry key c.entries })
    else (some entry, c)

def set (c : SelectionCache) (key : CacheKey) (endpoint_ids : List String) (now : Nat) :
    CacheEntry × SelectionCache :=
  let entry : CacheEntry := { endpoint_ids := endpoint_ids, expires_at := now + c.ttl }
  (entry, { c with entries := insertEntry key entry c.entries })

def invalidate (c : SelectionCache) (key : CacheKey) : SelectionCache :=
  { c with entries := removeEntry key c.entries }

def clear (c : SelectionCache) : SelectionCache := { c with entries := [] }

end SelectionCache

/-! ### Settings fields consulted by the manager (src/proxychain/config.py) -/

/-- supports_protocol is the set comprehension over enabled_protocols; it is
modelled as a list used only through membership and order-insensitive
iteration. -/
structure Settings where
  supports_protocol : List String
  listen_host : String
  public_host : String
  enable_glider : Bool
  max_endpoints : Nat
  cache_ttl_seconds : Nat
deriving Repr, DecidableEq

/-! ### Utility functions used by the manager (src/proxychain/utils.py)

str.upper()/str.lower() are modelled per character: ASCII letters change case
and everything else (including the CJK table keys) is unchanged, matching
Python on the strings these tables contain. -/

def pyLower (s : String) : String := String.mk (s.data.map Char.toLower)

def pyUpper (s : String) : String := String.mk (s.data.map Char.toUpper)

def pyStripStr (s : String) : String := String.mk (pyStrip s.data)

/-- Python truthiness of an optional string: None and "" are falsy. -/
def strTruthy (o : Option String) : Bool :=
  match o with
  | none => false
  | some s => !(s = "")

def COUNTRY_CODE_TO_NAME : List (String × String) :=
  [("US", "United States"), ("CA", "Canada"), ("GB", "United Kingdom"),
   ("UK", "United Kingdom"), ("DE", "Germany"), ("FR", "France"), ("NL", "Netherlands"),
   ("SE", "Sweden"), ("NO", "Norway"), ("FI", "Finland"), ("DK", "Denmark"),
   ("IS", "Iceland"), ("IE", "Ireland"), ("IT", "Italy"), ("ES", "Spain"),
   ("PT", "Portugal"), ("PL", "Poland"), ("RU", "Russia"), ("UA", "Ukraine"),
   ("RO", "Romania"), ("HU", "Hungary"), ("CZ", "Czech Republic"), ("SK", "Slovakia"),
   ("CH", "Switzerland"), ("AT", "Austria"), ("BE", "Belgium"), ("LU", "Luxembourg"),
   ("CN", "China"), ("TW", "Taiwan"), ("HK", "Hong Kong"), ("MO", "Macau"),
   ("JP", "Japan"), ("KR", "South Korea"), ("SG", "Singapore"), ("MY", "Malaysia"),
   ("TH", "Thailand"), ("VN", "Vietnam"), ("ID", "Indonesia"), ("PH", "Philippines"),
   ("IN", "India"), ("BT", "Bhutan"), ("BD", "Bangladesh"), ("NP", "Nepal"),
   ("MM", "Myanmar"), ("AU", "Australia"), ("NZ", "New Zealand"), ("BR", "Brazil"),
   ("AR", "Argentina"), ("CL", "Chile"), ("CO", "Colombia"), ("MX", "Mexico"),
   ("ZA", "South Africa"), ("AE", "United Arab Emirates"), ("QA", "Qatar"),
   ("SA", "Saudi Arabia"), ("IL", "Israel"), ("TR", "Turkey"), ("IR", "Iran"),
   ("IQ", "Iraq"), ("EG", "Egypt"), ("NG", "Nigeria"), ("KE", "Kenya")]

/-- The dict literal repeats the key 韩国; as in Python, the later binding is
the one retained (both map to KR, so this is invisible). -/
def CHINESE_NAME_TO_CODE : List (String × String) :=
  [("中国", "CN"), ("香港", "HK"), ("澳門", "MO"), ("澳门", "MO"), ("台湾", "TW"),
   ("台灣", "TW"), ("日本", "JP"), ("韩国", "KR"), ("南韓", "KR"), ("新加坡", "SG"),
   ("马来西亚", "MY"), ("馬來西亞", "MY"), ("泰国", "TH"), ("泰國", "TH"), ("越南", "VN"),
   ("印尼", "ID"), ("菲律宾", "PH"), ("菲律賓", "PH"), ("印度", "IN"), ("美国", "US"),
   ("美國", "US"), ("加拿大", "CA"), ("英国", "GB"), ("英國", "GB"), ("法国", "FR"),
   ("法國", "FR"), ("德国", "DE"), ("德國", "DE"), ("俄罗斯", "RU"), ("俄羅斯", "RU"),
   ("澳大利亚", "AU"), ("澳大利亞", "AU"), ("阿根廷", "AR"), ("捷克", "CZ"),
   ("瑞典", "SE"), ("瑞士", "CH"), ("西班牙", "ES"), ("葡萄牙", "PT")]

def ALIAS_TO_CODE : List (String × String) :=
  [("UNITED STATES", "US"), ("UNITED KINGDOM", "GB"), ("GREAT BRITAIN", "GB"),
   ("ENGLAND", "GB"), ("SCOTLAND", "GB"), ("WALES", "GB"), ("SOUTH KOREA", "KR"),
   ("NORTH KOREA", "KP"), ("KOREA", "KR"), ("HONGKONG", "HK"), ("HONG KONG", "HK"),
   ("TAIWAN", "TW"), ("MACAU", "MO"), ("UAE", "AE"), ("EMIRATES", "AE"),
   ("U.S.", "US"), ("USA", "US"), ("US", "US"), ("UK", "GB"), ("VIET NAM", "VN"),
   ("SAUDI", "SA")]

/-- COUNTRY_NAME_TO_CODE: names from the code table (uppercased), updated with
the aliases, updated with the (uppercased) CJK names. -/
def COUNTRY_NAME_TO_CODE : List (String × String) :=
  let base := COUNTRY_CODE_TO_NAME.foldl (fun acc p => dictInsert (pyUpper p.2) p.1 acc) []
  let withAlias := ALIAS_TO_CODE.foldl (fun acc p => dictInsert p.1 p.2 acc) base
  CHINESE_NAME_TO_CODE.foldl (fun acc p => dictInsert (pyUpper p.1) p.2 acc) withAlias

def normalise_protocols (protocols : List String) : List String :=
  protocols.filterMap fun item =>
    let item := pyLower (pyStripStr item)
    if item = "" then none else some item

def matches_country (query country_name country_code : Option String) : Bool :=
  match query with
  | none => true
  | some q =>
    if !strTruthy country_name && !strTruthy country_code then false
    else
      let query_clean := pyStripStr q
      if query_clean = "" then true
      else
        let query_code :=
          match dictGet (pyUpper query_clean) COUNTRY_NAME_TO_CODE with
          | some c => some c
          | none => if query_clean.length = 2 then some (pyUpper query_clean) else none
        if query_code.isSome && strTruthy country_code then query_code == country_code
        else if query_code.isSome && !strTruthy country_code then
          match country_name with
          | some cn =>
            if !(cn = "") then dictGet (pyUpper cn) COUNTRY_NAME_TO_CODE == query_code
            else false
          | none => false
        else if strTruthy country_name &&
            subStrContains (pyLower (country_name.getD "")).data (pyLower query_clean).data then
          true
        else if strTruthy country_code && (some (pyUpper query_clean) == country_code) then true
        else false

/-! ### Manager (src/proxychain/manager.py) -/

def EPOCH : Nat := 0

structure SelectionResult where
  endpoints : List ProxyEndpoint
  cached : Bool
  cache_expires_at : Option Nat
deriving Repr, DecidableEq

structure ManagerState where
  nodes : List (String × ProxyNode)
  endpoints : List (String × ProxyEndpoint)
  usage : List (String × Nat)
  cache : SelectionCache
  port_registry : PortRegistry
  last_refresh : Option Nat
deriving Repr, DecidableEq

/-- Modelled from the spec: the relay supervisor (glider_manager.py is not
among the provided sources).  Section 6 gives the contract
ensure(endpoint, backendURI) -> alive; ensure is modelled as a pure liveness
oracle keyed by the endpoint id and the backend URI, while cleanup, stop_all
and status only touch external processes and have no effect on manager
state. -/
def GliderEnsure : Type := String → String → Bool

def mapValues {α β : Type} (f : α → β) (l : List (String × α)) : List (String × β) :=
  l.map fun p => (p.1, f p.2)

/-- Refresh step 2: key the fetched nodes by uid, carrying created_at from an
existing node with the same uid and stamping updated_at = now. -/
def build_new_nodes (old_nodes : List (String × ProxyNode)) (nodes_list : List ProxyNode)
    (now : Nat) : List (String × ProxyNode) :=
  nodes_list.foldl
    (fun acc node =>
      let created :=
        match dictGet node.uid old_nodes with
        | some existing => existing.created_at
        | none => now
      dictInsert node.uid { node with created_at := created, updated_at := now } acc)
    []

/-- The ProxyEndpoint constructed in refresh for one node and protocol,
with created_at / available / last_checked carried over from an existing
endpoint with the same derived id. -/
def build_endpoint (settings : Settings) (old_endpoints : List (String × ProxyEndpoint))
    (node : ProxyNode) (protocol : String) (endpoint_id : String) (port : Nat)
    (now : Nat) : ProxyEndpoint :=
  let base : ProxyEndpoint :=
    { id := endpoint_id, node_uid := node.uid, protocol := protocol,
      host := settings.listen_host, port := port, public_host := settings.public_host,
      country := node.country, country_code := node.country_code, name := node.name,
      available := false, created_at := now, updated_at := now, last_checked := none }
  match dictGet endpoint_id old_endpoints with
  | some existing =>
    { base with
      created_at := existing.created_at
      available := existing.available
      last_checked := existing.last_checked }
  | none => base

/-- Refresh step 4: the per-node loop assigning ports and building the new
endpoints map. -/
def build_endpoints (settings : Settings) (old_endpoints : List (String × ProxyEndpoint))
    (now : Nat) : List ProxyNode → List (String × ProxyEndpoint) × PortRegistry →
      List (String × ProxyEndpoint) × PortRegistry
  | [], acc => acc
  | node :: rest, (eps, reg) =>
    let a := reg.assign node.uid
    let eps1 :=
      if "socks5" ∈ settings.supports_protocol then
        dictInsert (node.uid ++ ":socks5")
          (build_endpoint settings old_endpoints node "socks5" (node.uid ++ ":socks5")
            a.1.1 now) eps
      else eps
    let eps2 :=
      if "http" ∈ settings.supports_protocol then
        dictInsert (node.uid ++ ":http")
          (build_endpoint settings old_endpoints node "http" (node.uid ++ ":http")
            a.1.2 now) eps1
      else eps1
    build_endpoints settings old_endpoints now rest (eps2, a.2)

/-- Refresh step 5 for one endpoint: record relay liveness (glider enabled) or
mark unavailable (glider disabled).  A node lookup miss leaves the endpoint
untouched, as the loop's continue does. -/
def glider_transform (settings : Settings) (ensure : GliderEnsure)
    (new_nodes : List (String × ProxyNode)) (now : Nat) (ep : ProxyEndpoint) : ProxyEndpoint :=
  if settings.enable_glider then
    match dictGet ep.node_uid new_nodes with
    | none => ep
    | some node =>
      let alive := ensure ep.id node.backend_uri
      { ep with
        available := alive
        updated_at := now
        last_checked := if alive then some now else ep.last_checked }
  else
    { ep with available := false, updated_at := now }

def apply_glider (settings : Settings) (ensure : GliderEnsure)
    (new_nodes : List (String × ProxyNode)) (eps : List (String × ProxyEndpoint))
    (now : Nat) : List (String × ProxyEndpoint) :=
  mapValues (glider_transform settings ensure new_nodes now) eps

/-- ProxyManager.refresh, with the normalizer output (load_nodes) and the
refresh time passed in; returns the new state and the summary counts. -/
def refresh (settings : Settings) (ensure : GliderEnsure) (st : ManagerState)
    (loaded_nodes : List ProxyNode) (now : Nat) : ManagerState × (Nat × Nat × Nat) :=
  let new_nodes_list :=
    if settings.max_endpoints ≠ 0 ∧ loaded_nodes.length > settings.max_endpoints then
      loaded_nodes.take settings.max_endpoints
    else loaded_nodes
  let new_nodes := build_new_nodes st.nodes new_nodes_list now
  let removed_nodes := (dictKeys st.nodes).filter fun k => (dictGet k new_nodes).isNone
  let reg1 := removed_nodes.foldl PortRegistry.release st.port_registry
  let be := build_endpoints settings st.endpoints now (dictValues new_nodes) ([], reg1)
  let new_endpoints := apply_glider settings ensure new_nodes be.1 now
  let removed_endpoint_ids :=
    (dictKeys st.endpoints).filter fun k => (dictGet k new_endpoints).isNone
  let usage1 := st.usage.filter fun p => !removed_endpoint_ids.contains p.1
  let usage2 :=
    (dictValues new_endpoints).foldl (fun u ep => dictSetdefault ep.id ep.updated_at u) usage1
  let st' : ManagerState :=
    { nodes := new_nodes, endpoints := new_endpoints, usage := usage2,
      cache := st.cache.clear, port_registry := be.2.save, last_refresh := some now }
  (st', (new_nodes.length, new_endpoints.length, now))

/-! The selector.  list.sort with key (usage.get(id, EPOCH), endpoint.id) is a
stable ascending sort; it is modelled as stable insertion sort over the same
key. -/

def usage_key (usage : List (String × Nat)) (ep : ProxyEndpoint) : Nat × String :=
  ((dictGet ep.id usage).getD EPOCH, ep.id)

def key_le (a b : Nat × String) : Bool :=
  a.1 < b.1 || (a.1 = b.1 && a.2 ≤ b.2)

def insert_by_key (usage : List (String × Nat)) (ep : ProxyEndpoint) :
    List ProxyEndpoint → List ProxyEndpoint
  | [] => [ep]
  | x :: xs =>
    if key_le (usage_key usage ep) (usage_key usage x) then ep :: x :: xs
    else x :: insert_by_key usage ep xs

def sort_by_usage (usage : List (String × Nat)) : List ProxyEndpoint → List ProxyEndpoint
  | [] => []
  | x :: xs => insert_by_key usage x (sort_by_usage usage xs)

def insert_str_sorted (s : String) : List String → List String
  | [] => [s]
  | x :: xs => if s ≤ x then s :: x :: xs else x :: insert_str_sorted s xs

/-- sorted(protocols) for the cache key. -/
def sortStrings : List String → List String
  | [] => []
  | x :: xs => insert_str_sorted x (sortStrings xs)

/-- The requested protocol set, defaulting to all enabled protocols. -/
def select_protocols (settings : Settings) (protocols : List String) : List String :=
  if (normalise_protocols protocols).isEmpty then settings.supports_protocol
  else normalise_protocols protocols

/-- The cache key (tuple(sorted(protocols)), (country or "").lower(),
int(count)). -/
def select_key (settings : Settings) (protocols : List String) (country : Option String)
    (count : Int) : CacheKey :=
  (sortStrings (select_protocols settings protocols), pyLower (country.getD ""), count)

/-- The candidate endpoints: live endpoints filtered by protocol membership
and, when a country filter is given, by the country-match predicate. -/
def available_endpoints (st : ManagerState) (protocols : List String)
    (country : Option String) : List ProxyEndpoint :=
  let available := (dictValues st.endpoints).filter fun ep => protocols.contains ep.protocol
  if strTruthy country then
    available.filter fun ep => matches_country country ep.country ep.country_code
  else available

/-- The body of select after the cache probe, i.e. the critical section:
filter, order (or shuffle), truncate, stamp usage, and populate the cache on
the non-random path.  cache0 is the cache as left by the probe. -/
def select_locked (settings : Settings) (shuffle : List ProxyEndpoint → List ProxyEndpoint)
    (st : ManagerState) (cache0 : SelectionCache) (protocols : List String) (key : CacheKey)
    (country : Option String) (count : Int) (randomize : Bool) (now : Nat) :
    SelectionResult × ManagerState :=
  let available := available_endpoints st protocols country
  if available.isEmpty then
    if !randomize then
      ({ endpoints := [], cached := false, cache_expires_at := none },
        { st with cache := cache0.invalidate key })
    else
      ({ endpoints := [], cached := false, cache_expires_at := none },
        { st with cache := cache0 })
  else
    let available := if randomize then shuffle available else sort_by_usage st.usage available
    let selected := if count > 0 then available.take count.toNat else available
    let usage1 := selected.foldl (fun u ep => dictInsert ep.id now u) st.usage
    if !randomize then
      let se := cache0.set key (selected.map fun ep => ep.id) now
      ({ endpoints := selected, cached := false, cache_expires_at := some se.1.expires_at },
        { st with usage := usage1, cache := se.2 })
    else
      ({ endpoints := selected, cached := false, cache_expires_at := none },
        { st with usage := usage1, cache := cache0 })

/-- ProxyManager.select, with the shuffle permutation of random.shuffle and
the call time passed in. -/
def select (settings : Settings) (shuffle : List ProxyEndpoint → List ProxyEndpoint)
    (st : ManagerState) (protocols : List String) (country : Option String) (count : Int)
    (randomize : Bool) (now : Nat) : SelectionResult × ManagerState :=
  let protocols := select_protocols settings protocols
  let key : CacheKey := (sortStrings protocols, pyLower (country.getD ""), count)
  let probe := if randomize then (none, st.cache) else st.cache.get key now
  match probe.1 with
  | some entry =>
    let endpoints :=
      entry.endpoint_ids.filterMap fun endpoint_id => dictGet endpoint_id st.endpoints
    if !endpoints.isEmpty then
      ({ endpoints := endpoints, cached := true, cache_expires_at := some entry.expires_at },
        { st with cache := probe.2 })
    else
      select_locked settings shuffle st probe.2 protocols key country count randomize now
  | none =>
    select_locked settings shuffle st probe.2 protocols key country count randomize now

/-! ### C9 and C5: cache clearing and the random-mode frame -/

theorem select_locked_not_cached (settings : Settings)
    (shuffle : List ProxyEndpoint → List ProxyEndpoint) (st : ManagerState)
    (cache0 : SelectionCache) (protocols : List String) (key : CacheKey)
    (country : Option String) (count : Int) (randomize : Bool) (now : Nat) :
    (select_locked settings shuffle st cache0 protocols key country count randomize now).1.cached
      = false := by
  unfold select_locked
  dsimp only
  split_ifs <;> rfl

/-- C9: every refresh ends with the selection cache empty, so a non-random
select issued on the refreshed state misses the cache and its result is not
marked as cached. -/
theorem refresh_clears_cache (settings : Settings) (ensure : GliderEnsure)
    (st : ManagerState) (loaded_nodes : List ProxyNode) (now : Nat) :
    (refresh settings ensure st loaded_nodes now).1.cache.entries = [] ∧
      ∀ (shuffle : List ProxyEndpoint → List ProxyEndpoint) (protocols : List String)
        (country : Option String) (count : Int) (now2 : Nat),
        (select settings shuffle (refresh settings ensure st loaded_nodes now).1 protocols
            country count false now2).1.cached = false := by
  refine ⟨rfl, ?_⟩
  intro shuffle protocols country count now2
  unfold select
  have hget : ∀ key, (refresh settings ensure st loaded_nodes now).1.cache.get key now2 =
      (none, (refresh settings ensure st loaded_nodes now).1.cache) := by
    intro key
    unfold SelectionCache.get
    have : (refresh settings ensure st loaded_nodes now).1.cache.entries = [] := rfl
    rw [this]
    rfl
  simp only [Bool.false_eq_true, if_false, hget]
  exact select_locked_not_cached _ _ _ _ _ _ _ _ _ _

theorem dictGet_stamp_foldl (now : Nat) :
    ∀ (l : List ProxyEndpoint) (u : List (String × Nat)) (i : String),
      (i ∈ l.map (fun ep => ep.id) →
        dictGet i (l.foldl (fun u ep => dictInsert ep.id now u) u) = some now) ∧
      (i ∉ l.map (fun ep => ep.id) →
        dictGet i (l.foldl (fun u ep => dictInsert ep.id now u) u) = dictGet i u) := by
  intro l
  induction l with
  | nil => exact fun u i => ⟨by simp, fun _ => rfl⟩
  | cons e rest ih =>
    intro u i
    constructor
    · intro hmem
      simp only [List.map_cons, List.mem_cons] at hmem
      simp only [List.foldl_cons]
      rcases hmem with h | h
      · by_cases h2 : i ∈ rest.map fun ep => ep.id
        · exact (ih _ i).1 h2
        · rw [(ih _ i).2 h2, h, dictGet_insert_self]
      · exact (ih _ i).1 h
    · intro hmem
      simp only [List.map_cons, List.mem_cons] at hmem
      push_neg at hmem
      simp only [List.foldl_cons]
      rw [(ih _ i).2 hmem.2, dictGet_insert_ne (Ne.symm hmem.1)]

/-- For randomize=true the cache probe is skipped entirely and select goes
straight to the critical section with the cache untouched. -/
theorem select_randomize_eq (settings : Settings)
    (shuffle : List ProxyEndpoint → List ProxyEndpoint) (st : ManagerState)
    (protocols : List String) (country : Option String) (count : Int) (now : Nat) :
    select settings shuffle st protocols country count true now =
      select_locked settings shuffle st st.cache
        (if (normalise_protocols protocols).isEmpty then settings.supports_protocol
          else normalise_protocols protocols)
        (sortStrings (if (normalise_protocols protocols).isEmpty then
            settings.supports_protocol else normalise_protocols protocols),
          pyLower (country.getD ""), count)
        country count true now := rfl

/-- C5, amended: a randomize=true select leaves the cache, endpoint map, node
map, port registry and last-refresh timestamp unchanged, is never marked
cached and carries no cache expiry, and leaves the usage timestamp of every
endpoint it did not return unchanged — but, exactly like the non-random path,
it does stamp the usage timestamp of each returned endpoint to now. -/
theorem select_random_frame (settings : Settings)
    (shuffle : List ProxyEndpoint → List ProxyEndpoint) (st : ManagerState)
    (protocols : List String) (country : Option String) (count : Int) (now : Nat)
    (res : SelectionResult) (st' : ManagerState)
    (h : select settings shuffle st protocols country count true now = (res, st')) :
    st'.cache = st.cache ∧ st'.endpoints = st.endpoints ∧ st'.nodes = st.nodes ∧
      st'.port_registry = st.port_registry ∧ st'.last_refresh = st.last_refresh ∧
      res.cached = false ∧ res.cache_expires_at = none ∧
      (∀ ep ∈ res.endpoints, dictGet ep.id st'.usage = some now) ∧
      (∀ i, i ∉ res.endpoints.map (fun ep => ep.id) →
        dictGet i st'.usage = dictGet i st.usage) := by
  rw [select_randomize_eq] at h
  unfold select_locked at h
  simp only [Bool.not_true, Bool.false_eq_true, if_false] at h
  split_ifs at h
  all_goals
    injection h with hres hst
    subst hres
    subst hst
    refine ⟨rfl, rfl, rfl, rfl, rfl, rfl, rfl, ?_, ?_⟩
    · intro ep hep
      first
      | exact absurd hep (List.not_mem_nil ep)
      | exact (dictGet_stamp_foldl now _ st.usage ep.id).1 (List.mem_map_of_mem _ hep)
    · intro i hi
      first
      | rfl
      | exact (dictGet_stamp_foldl now _ st.usage i).2 hi

/-- The concrete one-endpoint manager state used for C5. -/
def ep0 : ProxyEndpoint :=
  { id := "n1:socks5", node_uid := "n1", protocol := "socks5", host := "0.0.0.0",
    port := 25000, public_host := "127.0.0.1", country := none, country_code := none,
    name := none, available := true, created_at := 10, updated_at := 10,
    last_checked := none }

def settings0 : Settings :=
  { supports_protocol := ["socks5"], listen_host := "0.0.0.0",
    public_host := "127.0.0.1", enable_glider := false, max_endpoints := 500,
    cache_ttl_seconds := 300 }

def st0 : ManagerState :=
  { nodes := [], endpoints := [("n1:socks5", ep0)], usage := [("n1:socks5", 10)],
    cache := SelectionCache.init 300, port_registry := PortRegistry.init 25000 26000,
    last_refresh := none }

/-- C5 counterexample: a randomize=true select (here with one candidate, so
the shuffle is the identity) stamps the selected endpoint's usage timestamp:
the usage table changes from 10 to the call time 42, so random mode does not
leave the rotation state unchanged. -/
theorem select_random_counterexample :
    (select settings0 (fun l => l) st0 [] none 1 true 42).2.usage ≠ st0.usage := by
  decide

/-- Witness for the amended C5 theorem at the same concrete state. -/
theorem select_random_frame_witness :
    (select settings0 (fun l => l) st0 [] none 1 true 42).2.cache = st0.cache ∧
      dictGet "n1:socks5" (select settings0 (fun l => l) st0 [] none 1 true 42).2.usage =
        some 42 ∧
      dictGet "other" (select settings0 (fun l => l) st0 [] none 1 true 42).2.usage =
        dictGet "other" st0.usage := by
  have h := select_random_frame settings0 (fun l => l) st0 [] none 1 42
    (select settings0 (fun l => l) st0 [] none 1 true 42).1
    (select settings0 (fun l => l) st0 [] none 1 true 42).2 rfl
  refine ⟨h.1, ?_, ?_⟩
  · exact h.2.2.2.2.2.2.2.1 ep0 (by decide)
  · exact h.2.2.2.2.2.2.2.2 "other" (by decide)

/-! ### C4: LRU ordering lemmas -/

theorem key_le_refl (a : Nat × String) : key_le a a = true := by
  unfold key_le
  simp

theorem key_le_total (a b : Nat × String) : key_le a b = true ∨ key_le b a = true := by
  unfold key_le
  rcases Nat.lt_trichotomy a.1 b.1 with h | h | h
  · left
    simp [h]
  · rcases le_total a.2 b.2 with h2 | h2
    · left
      simp [h, h2]
    · right
      simp [h.symm, h2]
  · right
    simp [h]

theorem key_le_trans {a b c : Nat × String} (h1 : key_le a b = true)
    (h2 : key_le b c = true) : key_le a c = true := by
  unfold key_le at h1 h2 ⊢
  simp only [Bool.or_eq_true, Bool.and_eq_true, decide_eq_true_eq] at h1 h2 ⊢
  rcases h1 with h1 | ⟨h1e, h1s⟩
  · rcases h2 with h2 | ⟨h2e, h2s⟩
    · exact Or.inl (lt_trans h1 h2)
    · exact Or.inl (h2e ▸ h1)
  · rcases h2 with h2 | ⟨h2e, h2s⟩
    · exact Or.inl (h1e ▸ h2)
    · exact Or.inr ⟨h1e.trans h2e, le_trans h1s h2s⟩

theorem mem_insert_by_key {usage : List (String × Nat)} {ep x : ProxyEndpoint}
    {l : List ProxyEndpoint} : x ∈ insert_by_key usage ep l ↔ x = ep ∨ x ∈ l := by
  induction l with
  | nil => simp [insert_by_key]
  | cons y ys ih =>
    by_cases h : key_le (usage_key usage ep) (usage_key usage y) = true
    · simp [insert_by_key, h]
    · simp [insert_by_key, h, ih]
      tauto

theorem mem_sort_by_usage {usage : List (String × Nat)} {x : ProxyEndpoint}
    {l : List ProxyEndpoint} : x ∈ sort_by_usage usage l ↔ x ∈ l := by
  induction l with
  | nil => simp [sort_by_usage]
  | cons y ys ih =>
    simp [sort_by_usage, mem_insert_by_key, ih]

/-- The head of the usage-sorted candidate list is a least-recently-used
candidate: it belongs to the list and its key is at most every candidate's
key. -/
theorem sort_by_usage_head_min (usage : List (String × Nat)) (l : List ProxyEndpoint)
    (h t : _) (heq : sort_by_usage usage l = h :: t) :
    h ∈ l ∧ ∀ y ∈ l, key_le (usage_key usage h) (usage_key usage y) = true := by
  induction l generalizing h t with
  | nil => simp [sort_by_usage] at heq
  | cons x xs ih =>
    simp only [sort_by_usage] at heq
    cases hs : sort_by_usage usage xs with
    | nil =>
      rw [hs] at heq
      simp only [insert_by_key] at heq
      injection heq with h1 h2
      rw [← h1]
      refine ⟨List.mem_cons_self _ _, ?_⟩
      intro y hy
      rcases List.mem_cons.mp hy with hy | hy
      · subst hy
        exact key_le_refl _
      · exfalso
        have : y ∈ sort_by_usage usage xs := mem_sort_by_usage.mpr hy
        rw [hs] at this
        simp at this
    | cons h' t' =>
      rw [hs] at heq
      have hmin' := ih h' t' hs
      simp only [insert_by_key] at heq
      by_cases hcmp : key_le (usage_key usage x) (usage_key usage h') = true
      · rw [if_pos hcmp] at heq
        injection heq with h1 h2
        rw [← h1]
        refine ⟨List.mem_cons_self _ _, ?_⟩
        intro y hy
        rcases List.mem_cons.mp hy with hy | hy
        · subst hy
          exact key_le_refl _
        · exact key_le_trans hcmp (hmin'.2 y hy)
      · rw [if_neg hcmp] at heq
        injection heq with h1 h2
        rw [← h1]
        refine ⟨List.mem_cons_of_mem _ hmin'.1, ?_⟩
        intro y hy
        rcases List.mem_cons.mp hy with hy | hy
        · subst hy
          rcases key_le_total (usage_key usage y) (usage_key usage h') with hc | hc
          · exact absurd hc hcmp
          · exact hc
        · exact hmin'.2 y hy

/-- On a cache miss the non-random select proceeds to the critical section
with the probe-updated cache. -/
theorem select_nonrandom_miss_eq (settings : Settings)
    (shuffle : List ProxyEndpoint → List ProxyEndpoint) (st : ManagerState)
    (protocols : List String) (country : Option String) (count : Int) (now : Nat)
    (hmiss : (st.cache.get (select_key settings protocols country count) now).1 = none) :
    select settings shuffle st protocols country count false now =
      select_locked settings shuffle st
        (st.cache.get (select_key settings protocols country count) now).2
        (select_protocols settings protocols) (select_key settings protocols country count)
        country count false now := by
  unfold select
  dsimp only
  simp only [Bool.false_eq_true, if_false]
  rw [show (sortStrings (select_protocols settings protocols), pyLower (country.getD ""),
      count) = select_key settings protocols country count from rfl]
  rw [hmiss]

theorem select_locked_nonrandom (settings : Settings)
    (shuffle : List ProxyEndpoint → List ProxyEndpoint) (st : ManagerState)
    (cache0 : SelectionCache) (protos : List String) (key : CacheKey)
    (country : Option String) (count : Int) (now : Nat)
    (hne : (available_endpoints st protos country).isEmpty = false) :
    select_locked settings shuffle st cache0 protos key country count false now =
      ({ endpoints :=
          if count > 0 then
            (sort_by_usage st.usage (available_endpoints st protos country)).take count.toNat
          else sort_by_usage st.usage (available_endpoints st protos country),
         cached := false
         cache_expires_at := some (now + cache0.ttl) },
       { st with
         usage :=
          (if count > 0 then
            (sort_by_usage st.usage (available_endpoints st protos country)).take count.toNat
          else
            sort_by_usage st.usage (available_endpoints st protos country)).foldl
            (fun u ep => dictInsert ep.id now u) st.usage
         cache :=
          (cache0.set key
            ((if count > 0 then
                (sort_by_usage st.usage
                  (available_endpoints st protos country)).take count.toNat
              else
                sort_by_usage st.usage (available_endpoints st protos country)).map
              fun ep => ep.id) now).2 }) := by
  unfold select_locked
  dsimp only
  simp only [hne, Bool.false_eq_true, if_false]
  rfl

theorem exists_other {a b c x : ProxyEndpoint} (hab : a.id ≠ b.id) (hac : a.id ≠ c.id)
    (hbc : b.id ≠ c.id) (hx : x ∈ [a, b, c]) : ∃ y ∈ [a, b, c], y.id ≠ x.id := by
  simp only [List.mem_cons, List.not_mem_nil, or_false] at hx
  rcases hx with h | h | h <;> subst h
  · exact ⟨b, by simp, Ne.symm hab⟩
  · exact ⟨a, by simp, hab⟩
  · exact ⟨a, by simp, hac⟩

theorem exists_third {a b c x1 x2 : ProxyEndpoint} (hab : a.id ≠ b.id) (hac : a.id ≠ c.id)
    (hbc : b.id ≠ c.id) (h1 : x1 ∈ [a, b, c]) (h2 : x2 ∈ [a, b, c]) :
    x1.id ≠ x2.id → ∃ z ∈ [a, b, c], z.id ≠ x1.id ∧ z.id ≠ x2.id := by
  intro h12
  simp only [List.mem_cons, List.not_mem_nil, or_false] at h1 h2
  rcases h1 with h1 | h1 | h1 <;> rcases h2 with h2 | h2 | h2 <;> subst h1 <;> subst h2
  · exact absurd rfl h12
  · exact ⟨c, by simp, Ne.symm hac, Ne.symm hbc⟩
  · exact ⟨b, by simp, Ne.symm hab, hbc⟩
  · exact ⟨c, by simp, Ne.symm hbc, Ne.symm hac⟩
  · exact absurd rfl h12
  · exact ⟨a, by simp, hab, hac⟩
  · exact ⟨b, by simp, hbc, Ne.symm hab⟩
  · exact ⟨a, by simp, hac, hab⟩
  · exact absurd rfl h12

theorem select_lru_miss_characterization :
    ∀ (settings : Settings) (shuffle : List ProxyEndpoint → List ProxyEndpoint)
      (st : ManagerState) (protocols : List String) (country : Option String)
      (count : Int) (now : Nat),
      (st.cache.get (select_key settings protocols country count) now).1 = none →
      (available_endpoints st (select_protocols settings protocols) country).isEmpty =
        false →
      (select settings shuffle st protocols country count false now).1.endpoints =
          (if count > 0 then
            (sort_by_usage st.usage
              (available_endpoints st (select_protocols settings protocols) country)).take
              count.toNat
          else
            sort_by_usage st.usage
              (available_endpoints st (select_protocols settings protocols) country)) ∧
        (select settings shuffle st protocols country count false now).1.cached = false ∧
        (∀ ep ∈ (select settings shuffle st protocols country count false now).1.endpoints,
          dictGet ep.id
            (select settings shuffle st protocols country count false now).2.usage =
            some now) ∧
        (∀ e f : ProxyEndpoint, ∀ ts : Nat, dictGet e.id st.usage = none →
          dictGet f.id st.usage = some ts → 0 < ts →
          key_le (usage_key st.usage e) (usage_key st.usage f) = true ∧
            key_le (usage_key st.usage f) (usage_key st.usage e) = false) := by
  intro settings shuffle st protocols country count now hmiss hne
  rw [select_nonrandom_miss_eq settings shuffle st protocols country count now hmiss,
    select_locked_nonrandom settings shuffle st _ _ _ country count now hne]
  refine ⟨rfl, rfl, ?_, ?_⟩
  · intro ep hep
    exact (dictGet_stamp_foldl now _ st.usage ep.id).1 (List.mem_map_of_mem _ hep)
  · intro e f ts hnone hsome hpos
    have hek : usage_key st.usage e = (EPOCH, e.id) := by
      unfold usage_key
      rw [hnone]
      rfl
    have hfk : usage_key st.usage f = (ts, f.id) := by
      unfold usage_key
      rw [hsome]
      rfl
    rw [hek, hfk]
    unfold key_le
    have hts : ts ≠ 0 := by omega
    constructor
    · simp [EPOCH, hpos]
    · simp [EPOCH, hts]

theorem select_round (settings : Settings)
    (shuffle : List ProxyEndpoint → List ProxyEndpoint) (st : ManagerState)
    (a b c : ProxyEndpoint) (t : Nat)
    (hvals : dictValues st.endpoints = [a, b, c])
    (hpa : settings.supports_protocol.contains a.protocol = true)
    (hpb : settings.supports_protocol.contains b.protocol = true)
    (hpc : settings.supports_protocol.contains c.protocol = true)
    (hmiss : (st.cache.get (select_key settings [] none 1) t).1 = none) :
    ∃ x rest, sort_by_usage st.usage [a, b, c] = x :: rest ∧
      select settings shuffle st [] none 1 false t =
        ({ endpoints := [x]
           cached := false
           cache_expires_at :=
             some (t + (st.cache.get (select_key settings [] none 1) t).2.ttl) },
         { st with
           usage := dictInsert x.id t st.usage
           cache := ((st.cache.get (select_key settings [] none 1) t).2.set
             (select_key settings [] none 1) [x.id] t).2 }) ∧
      x ∈ [a, b, c] ∧
      ∀ y ∈ [a, b, c], key_le (usage_key st.usage x) (usage_key st.usage y) = true := by
  have havail : available_endpoints st (select_protocols settings []) none = [a, b, c] := by
    unfold available_endpoints
    dsimp only
    rw [hvals]
    have hall : ∀ ep ∈ [a, b, c],
        (select_protocols settings []).contains ep.protocol = true := by
      intro ep hep
      rcases List.mem_cons.mp hep with h | hep
      · subst h
        exact hpa
      rcases List.mem_cons.mp hep with h | hep
      · subst h
        exact hpb
      rcases List.mem_cons.mp hep with h | hep
      · subst h
        exact hpc
      · simp at hep
    rw [List.filter_eq_self.mpr hall]
    rfl
  have hne : (available_endpoints st (select_protocols settings []) none).isEmpty = false := by
    rw [havail]
    rfl
  obtain ⟨x, rest, hs⟩ : ∃ x rest, sort_by_usage st.usage [a, b, c] = x :: rest := by
    have hmem : a ∈ sort_by_usage st.usage [a, b, c] := mem_sort_by_usage.mpr (by simp)
    cases hcase : sort_by_usage st.usage [a, b, c] with
    | nil =>
      rw [hcase] at hmem
      simp at hmem
    | cons x rest => exact ⟨x, rest, rfl⟩
  have hmin := sort_by_usage_head_min st.usage [a, b, c] x rest hs
  refine ⟨x, rest, hs, ?_, hmin.1, hmin.2⟩
  rw [select_nonrandom_miss_eq settings shuffle st [] none 1 t hmiss,
    select_locked_nonrandom settings shuffle st _ _ _ none 1 t hne]
  simp only [havail, hs]
  norm_num

theorem select_rotation_three :
    ∀ (settings : Settings) (shuffle : List ProxyEndpoint → List ProxyEndpoint)
      (st : ManagerState) (a b c : ProxyEndpoint) (t1 t2 t3 : Nat),
      dictValues st.endpoints = [a, b, c] →
      a.id ≠ b.id → a.id ≠ c.id → b.id ≠ c.id →
      settings.supports_protocol.contains a.protocol = true →
      settings.supports_protocol.contains b.protocol = true →
      settings.supports_protocol.contains c.protocol = true →
      st.cache.entries = [] →
      (∀ x ∈ [a, b, c], (dictGet x.id st.usage).getD EPOCH < t1) →
      t1 + st.cache.ttl ≤ t2 → t2 + st.cache.ttl ≤ t3 →
      ∃ x1 x2 x3 : ProxyEndpoint,
        (select settings shuffle st [] none 1 false t1).1.endpoints = [x1] ∧
        (select settings shuffle
          (select settings shuffle st [] none 1 false t1).2
          [] none 1 false t2).1.endpoints = [x2] ∧
        (select settings shuffle
          (select settings shuffle
            (select settings shuffle st [] none 1 false t1).2
            [] none 1 false t2).2
          [] none 1 false t3).1.endpoints = [x3] ∧
        x1 ∈ [a, b, c] ∧ x2 ∈ [a, b, c] ∧ x3 ∈ [a, b, c] ∧
        x1.id ≠ x2.id ∧ x1.id ≠ x3.id ∧ x2.id ≠ x3.id := by
  intro settings shuffle st a b c t1 t2 t3 hvals hab hac hbc hpa hpb hpc hcache husage h12 h23
  -- first call: the empty cache misses
  have hmiss1 : (st.cache.get (select_key settings [] none 1) t1).1 = none := by
    unfold SelectionCache.get
    rw [hcache]
    rfl
  have hprobe1 : (st.cache.get (select_key settings [] none 1) t1).2 = st.cache := by
    unfold SelectionCache.get
    rw [hcache]
    rfl
  obtain ⟨x1, r1, hs1, hsel1, hx1mem, hx1min⟩ :=
    select_round settings shuffle st a b c t1 hvals hpa hpb hpc hmiss1
  rw [hprobe1] at hsel1
  -- components of the state after the first call
  have hvals1 : dictValues (select settings shuffle st [] none 1 false t1).2.endpoints =
      [a, b, c] := by
    rw [hsel1]
    exact hvals
  have hu1 : (select settings shuffle st [] none 1 false t1).2.usage =
      dictInsert x1.id t1 st.usage := by
    rw [hsel1]
  have hc1entries : (select settings shuffle st [] none 1 false t1).2.cache.entries =
      [(select_key settings [] none 1,
        { endpoint_ids := [x1.id], expires_at := t1 + st.cache.ttl })] := by
    rw [hsel1]
    show (st.cache.set (select_key settings [] none 1) [x1.id] t1).2.entries = _
    unfold SelectionCache.set
    dsimp only
    rw [hcache]
    rfl
  have hc1ttl : (select settings shuffle st [] none 1 false t1).2.cache.ttl =
      st.cache.ttl := by
    rw [hsel1]
    rfl
  -- second call: the stored entry has expired, so the probe misses
  have hmiss2 : ((select settings shuffle st [] none 1 false t1).2.cache.get
      (select_key settings [] none 1) t2).1 = none := by
    unfold SelectionCache.get
    rw [hc1entries]
    simp [SelectionCache.lookup, h12]
  have hprobe2entries : ((select settings shuffle st [] none 1 false t1).2.cache.get
      (select_key settings [] none 1) t2).2.entries = [] := by
    unfold SelectionCache.get
    rw [hc1entries]
    simp [SelectionCache.lookup, SelectionCache.removeEntry, h12]
  have hprobe2ttl : ((select settings shuffle st [] none 1 false t1).2.cache.get
      (select_key settings [] none 1) t2).2.ttl = st.cache.ttl := by
    unfold SelectionCache.get
    rw [hc1entries]
    simp [SelectionCache.lookup, h12]
    exact hc1ttl
  obtain ⟨x2, r2, hs2, hsel2, hx2mem, hx2min⟩ :=
    select_round settings shuffle (select settings shuffle st [] none 1 false t1).2
      a b c t2 hvals1 hpa hpb hpc hmiss2
  rw [hu1] at hx2min
  -- the second pick differs from the first
  have hx21 : x2.id ≠ x1.id := by
    intro heq
    obtain ⟨y, hy, hyne⟩ := exists_other hab hac hbc hx1mem
    have hkey := hx2min y hy
    have hky : usage_key (dictInsert x1.id t1 st.usage) y =
        ((dictGet y.id st.usage).getD EPOCH, y.id) := by
      unfold usage_key
      rw [dictGet_insert_ne (Ne.symm hyne)]
    have hkx2 : usage_key (dictInsert x1.id t1 st.usage) x2 = (t1, x2.id) := by
      unfold usage_key
      rw [heq, dictGet_insert_self]
      rfl
    rw [hkx2, hky] at hkey
    have hylt := husage y hy
    unfold key_le at hkey
    simp only [Bool.or_eq_true, Bool.and_eq_true, decide_eq_true_eq] at hkey
    rcases hkey with hk | ⟨hk, -⟩ <;> omega
  -- components of the state after the second call
  have hvals2 : dictValues (select settings shuffle
      (select settings shuffle st [] none 1 false t1).2 [] none 1 false t2).2.endpoints =
      [a, b, c] := by
    rw [hsel2]
    exact hvals1
  have hu2 : (select settings shuffle
      (select settings shuffle st [] none 1 false t1).2 [] none 1 false t2).2.usage =
      dictInsert x2.id t2 (dictInsert x1.id t1 st.usage) := by
    rw [hsel2, hu1]
  have hc2entries : (select settings shuffle
      (select settings shuffle st [] none 1 false t1).2 [] none 1 false t2).2.cache.entries =
      [(select_key settings [] none 1,
        { endpoint_ids := [x2.id], expires_at := t2 + st.cache.ttl })] := by
    rw [hsel2]
    show (((select settings shuffle st [] none 1 false t1).2.cache.get
        (select_key settings [] none 1) t2).2.set
        (select_key settings [] none 1) [x2.id] t2).2.entries = _
    unfold SelectionCache.set
    dsimp only
    rw [hprobe2entries, hprobe2ttl]
    rfl
  -- third call: again the stored entry has expired
  have hmiss3 : ((select settings shuffle
      (select settings shuffle st [] none 1 false t1).2 [] none 1 false t2).2.cache.get
      (select_key settings [] none 1) t3).1 = none := by
    unfold SelectionCache.get
    rw [hc2entries]
    simp [SelectionCache.lookup, h23]
  obtain ⟨x3, r3, hs3, hsel3, hx3mem, hx3min⟩ :=
    select_round settings shuffle
      (select settings shuffle (select settings shuffle st [] none 1 false t1).2
        [] none 1 false t2).2
      a b c t3 hvals2 hpa hpb hpc hmiss3
  rw [hu2] at hx3min
  -- the third pick differs from both earlier picks
  obtain ⟨z, hz, hz1, hz2⟩ := exists_third hab hac hbc hx1mem hx2mem (Ne.symm hx21)
  have hkz : usage_key (dictInsert x2.id t2 (dictInsert x1.id t1 st.usage)) z =
      ((dictGet z.id st.usage).getD EPOCH, z.id) := by
    unfold usage_key
    rw [dictGet_insert_ne (Ne.symm hz2), dictGet_insert_ne (Ne.symm hz1)]
  have hzlt := husage z hz
  have hx31 : x3.id ≠ x1.id := by
    intro heq
    have hkey := hx3min z hz
    have hkx3 : usage_key (dictInsert x2.id t2 (dictInsert x1.id t1 st.usage)) x3 =
        (t1, x3.id) := by
      unfold usage_key
      rw [heq, dictGet_insert_ne hx21, dictGet_insert_self]
      rfl
    rw [hkx3, hkz] at hkey
    unfold key_le at hkey
    simp only [Bool.or_eq_true, Bool.and_eq_true, decide_eq_true_eq] at hkey
    rcases hkey with hk | ⟨hk, -⟩ <;> omega
  have hx32 : x3.id ≠ x2.id := by
    intro heq
    have hkey := hx3min z hz
    have hkx3 : usage_key (dictInsert x2.id t2 (dictInsert x1.id t1 st.usage)) x3 =
        (t2, x3.id) := by
      unfold usage_key
      rw [heq, dictGet_insert_self]
      rfl
    rw [hkx3, hkz] at hkey
    unfold key_le at hkey
    simp only [Bool.or_eq_true, Bool.and_eq_true, decide_eq_true_eq] at hkey
    rcases hkey with hk | ⟨hk, -⟩ <;> omega
  refine ⟨x1, x2, x3, ?_, ?_, ?_, hx1mem, hx2mem, hx3mem,
    Ne.symm hx21, Ne.symm hx31, Ne.symm hx32⟩
  · rw [hsel1]
  · rw [hsel2]
  · rw [hsel3]

/-- C4: non-random selection on the cache-miss path is least-recently-used.
Part one: the returned endpoints are the candidates sorted by
(last-selected timestamp, id) ascending truncated to count (all of them when
count <= 0), the result is not marked cached, every selected endpoint's usage
timestamp is stamped to now, and an endpoint never selected sorts strictly
before any endpoint with a positive stamp.  Part two: with 3 endpoints of
pairwise-distinct ids and repeated select(count=1, randomize=false) calls that
each miss the cache, the three consecutive picks are pairwise distinct, i.e.
each endpoint is chosen exactly once within the 3 calls. -/
theorem select_lru_rotation :
    (∀ (settings : Settings) (shuffle : List ProxyEndpoint → List ProxyEndpoint)
      (st : ManagerState) (protocols : List String) (country : Option String)
      (count : Int) (now : Nat),
      (st.cache.get (select_key settings protocols country count) now).1 = none →
      (available_endpoints st (select_protocols settings protocols) country).isEmpty =
        false →
      (select settings shuffle st protocols country count false now).1.endpoints =
          (if count > 0 then
            (sort_by_usage st.usage
              (available_endpoints st (select_protocols settings protocols) country)).take
              count.toNat
          else
            sort_by_usage st.usage
              (available_endpoints st (select_protocols settings protocols) country)) ∧
        (select settings shuffle st protocols country count false now).1.cached = false ∧
        (∀ ep ∈ (select settings shuffle st protocols country count false now).1.endpoints,
          dictGet ep.id
            (select settings shuffle st protocols country count false now).2.usage =
            some now) ∧
        (∀ e f : ProxyEndpoint, ∀ ts : Nat, dictGet e.id st.usage = none →
          dictGet f.id st.usage = some ts → 0 < ts →
          key_le (usage_key st.usage e) (usage_key st.usage f) = true ∧
            key_le (usage_key st.usage f) (usage_key st.usage e) = false)) ∧
    (∀ (settings : Settings) (shuffle : List ProxyEndpoint → List ProxyEndpoint)
      (st : ManagerState) (a b c : ProxyEndpoint) (t1 t2 t3 : Nat),
      dictValues st.endpoints = [a, b, c] →
      a.id ≠ b.id → a.id ≠ c.id → b.id ≠ c.id →
      settings.supports_protocol.contains a.protocol = true →
      settings.supports_protocol.contains b.protocol = true →
      settings.supports_protocol.contains c.protocol = true →
      st.cache.entries = [] →
      (∀ x ∈ [a, b, c], (dictGet x.id st.usage).getD EPOCH < t1) →
      t1 + st.cache.ttl ≤ t2 → t2 + st.cache.ttl ≤ t3 →
      ∃ x1 x2 x3 : ProxyEndpoint,
        (select settings shuffle st [] none 1 false t1).1.endpoints = [x1] ∧
        (select settings shuffle
          (select settings shuffle st [] none 1 false t1).2
          [] none 1 false t2).1.endpoints = [x2] ∧
        (select settings shuffle
          (select settings shuffle
            (select settings shuffle st [] none 1 false t1).2
            [] none 1 false t2).2
          [] none 1 false t3).1.endpoints = [x3] ∧
        x1 ∈ [a, b, c] ∧ x2 ∈ [a, b, c] ∧ x3 ∈ [a, b, c] ∧
        x1.id ≠ x2.id ∧ x1.id ≠ x3.id ∧ x2.id ≠ x3.id) :=
  ⟨select_lru_miss_characterization, select_rotation_three⟩

def epA : ProxyEndpoint :=
  { id := "a:socks5", node_uid := "a", protocol := "socks5", host := "h", port := 1,
    public_host := "p", country := none, country_code := none, name := none,
    available := true, created_at := 0, updated_at := 0, last_checked := none }

def epB : ProxyEndpoint := { epA with id := "b:socks5", node_uid := "b", port := 2 }

def epC : ProxyEndpoint := { epA with id := "c:socks5", node_uid := "c", port := 3 }

def settingsW : Settings :=
  { supports_protocol := ["socks5"], listen_host := "h", public_host := "p",
    enable_glider := false, max_endpoints := 0, cache_ttl_seconds := 1 }

def stW : ManagerState :=
  { nodes := [], endpoints := [("a:socks5", epA), ("b:socks5", epB), ("c:socks5", epC)],
    usage := [], cache := SelectionCache.init 1, port_registry := PortRegistry.init 1 2,
    last_refresh := none }

/-- Witness for C4: three endpoints, ttl 1, calls at times 1, 2, 3 — each call
picks a single endpoint and the three picked ids are pairwise distinct. -/
theorem select_lru_rotation_witness :
    (select settingsW (fun l => l) stW [] none 1 false 1).1.cached = false ∧
      ((select settingsW (fun l => l) stW [] none 1 false 1).1.endpoints.map
          (fun ep => ep.id)).head? ≠
        ((select settingsW (fun l => l)
          (select settingsW (fun l => l) stW [] none 1 false 1).2
          [] none 1 false 2).1.endpoints.map (fun ep => ep.id)).head? ∧
      ((select settingsW (fun l => l) stW [] none 1 false 1).1.endpoints.map
          (fun ep => ep.id)).head? ≠
        ((select settingsW (fun l => l)
          (select settingsW (fun l => l)
            (select settingsW (fun l => l) stW [] none 1 false 1).2
            [] none 1 false 2).2
          [] none 1 false 3).1.endpoints.map (fun ep => ep.id)).head? ∧
      ((select settingsW (fun l => l)
          (select settingsW (fun l => l) stW [] none 1 false 1).2
          [] none 1 false 2).1.endpoints.map (fun ep => ep.id)).head? ≠
        ((select settingsW (fun l => l)
          (select settingsW (fun l => l)
            (select settingsW (fun l => l) stW [] none 1 false 1).2
            [] none 1 false 2).2
          [] none 1 false 3).1.endpoints.map (fun ep => ep.id)).head? := by
  have hpart1 := (select_lru_rotation.1 settingsW (fun l => l) stW [] none 1 1
    (by decide) (by decide)).2.1
  obtain ⟨x1, x2, x3, h1, h2, h3, m1, m2, m3, d12, d13, d23⟩ :=
    select_lru_rotation.2 settingsW (fun l => l) stW epA epB epC 1 2 3
      (by decide) (by decide) (by decide) (by decide) (by decide) (by decide) (by decide)
      rfl (by decide) (by decide) (by decide)
  refine ⟨hpart1, ?_, ?_, ?_⟩
  · rw [h1, h2]
    simp [d12]
  · rw [h1, h3]
    simp [d13]
  · rw [h2, h3]
    simp [d23]

/-! ### C1: refresh is identity-preserving across a byte-identical re-run -/

theorem dictGet_mapValues {α β : Type} (f : α → β) (key : String) (l : List (String × α)) :
    dictGet key (mapValues f l) = (dictGet key l).map f := by
  induction l with
  | nil => simp [mapValues, dictGet]
  | cons hd tl ih =>
    obtain ⟨k, v⟩ := hd
    by_cases h : k = key <;> simp [mapValues, dictGet, h] <;> exact ih

theorem dictInsert_mapValues {α β : Type} (f : α → β) (key : String) (v : α)
    (l : List (String × α)) :
    dictInsert key (f v) (mapValues f l) = mapValues f (dictInsert key v l) := by
  induction l with
  | nil => simp [mapValues, dictInsert]
  | cons hd tl ih =>
    obtain ⟨k, w⟩ := hd
    by_cases h : k = key <;> simp [mapValues, dictInsert, h] <;> exact ih

theorem dictGet_isSome_iff {α : Type} (key : String) (l : List (String × α)) :
    (dictGet key l).isSome = true ↔ key ∈ dictKeys l := by
  constructor
  · intro h
    by_contra hmem
    rw [← dictGet_none_iff] at hmem
    rw [hmem] at h
    simp at h
  · intro hmem
    cases hget : dictGet key l with
    | none => exact absurd hmem ((dictGet_none_iff key l).mp hget)
    | some v => rfl

theorem dictGet_insert_isSome {α : Type} (key k : String) (v : α) (l : List (String × α)) :
    (dictGet key (dictInsert k v l)).isSome = true ↔
      key = k ∨ (dictGet key l).isSome = true := by
  by_cases h : k = key
  · subst h
    simp [dictGet_insert_self]
  · rw [dictGet_insert_ne h]
    constructor
    · intro hs
      exact Or.inr hs
    · intro hs
      rcases hs with hs | hs
      · exact absurd hs.symm h
      · exact hs

theorem dictGet_of_mem_nodup {α : Type} {l : List (String × α)} {k : String} {v : α}
    (hmem : (k, v) ∈ l) (hnod : (dictKeys l).Nodup) : dictGet k l = some v := by
  induction l with
  | nil => simp at hmem
  | cons hd tl ih =>
    obtain ⟨k', v'⟩ := hd
    simp only [dictKeys, List.map_cons, List.nodup_cons] at hnod
    rcases List.mem_cons.mp hmem with h | h
    · injection h with h1 h2
      subst h1
      subst h2
      simp [dictGet]
    · have hk : k' ≠ k := by
        intro heq
        subst heq
        exact hnod.1 (List.mem_map.mpr ⟨(k', v), h, rfl⟩)
      simp only [dictGet, if_neg hk]
      exact ih h hnod.2

/-- The per-node value written by build_new_nodes. -/
def new_node_value (old_nodes : List (String × ProxyNode)) (now : Nat)
    (node : ProxyNode) : ProxyNode :=
  { node with
    created_at :=
      match dictGet node.uid old_nodes with
      | some existing => existing.created_at
      | none => now
    updated_at := now }

theorem build_new_nodes_eq_foldl (old_nodes : List (String × ProxyNode))
    (nodes_list : List ProxyNode) (now : Nat) :
    build_new_nodes old_nodes nodes_list now =
      nodes_list.foldl
        (fun acc node => dictInsert node.uid (new_node_value old_nodes now node) acc) [] := rfl

theorem bnn_fold_value (old_nodes : List (String × ProxyNode)) (now : Nat) :
    ∀ (nodes_list : List ProxyNode) (acc : List (String × ProxyNode)),
      (∀ uid n, dictGet uid acc = some n →
        n.created_at = (match dictGet uid old_nodes with
          | some existing => existing.created_at
          | none => now) ∧ n.updated_at = now ∧ n.uid = uid) →
      ∀ uid n,
        dictGet uid
          (nodes_list.foldl
            (fun acc node => dictInsert node.uid (new_node_value old_nodes now node) acc)
            acc) = some n →
        n.created_at = (match dictGet uid old_nodes with
          | some existing => existing.created_at
          | none => now) ∧ n.updated_at = now ∧ n.uid = uid := by
  intro nodes_list
  induction nodes_list with
  | nil => exact fun acc hacc => hacc
  | cons node rest ih =>
    intro acc hacc
    simp only [List.foldl_cons]
    apply ih
    intro uid n hget
    by_cases h : node.uid = uid
    · subst h
      rw [dictGet_insert_self] at hget
      injection hget with hv
      subst hv
      exact ⟨rfl, rfl, rfl⟩
    · rw [dictGet_insert_ne h] at hget
      exact hacc uid n hget

theorem bnn_fold_isSome (old_nodes : List (String × ProxyNode)) (now : Nat) :
    ∀ (nodes_list : List ProxyNode) (acc : List (String × ProxyNode)) (uid : String),
      uid ∈ nodes_list.map (fun node => node.uid) ∨ (dictGet uid acc).isSome = true →
      (dictGet uid
        (nodes_list.foldl
          (fun acc node => dictInsert node.uid (new_node_value old_nodes now node) acc)
          acc)).isSome = true := by
  intro nodes_list
  induction nodes_list with
  | nil =>
    intro acc uid h
    rcases h with h | h
    · simp at h
    · exact h
  | cons node rest ih =>
    intro acc uid h
    simp only [List.foldl_cons]
    apply ih
    rcases h with h | h
    · simp only [List.map_cons, List.mem_cons] at h
      rcases h with h | h
      · subst h
        exact Or.inr ((dictGet_insert_isSome _ _ _ _).mpr (Or.inl rfl))
      · exact Or.inl h
    · exact Or.inr ((dictGet_insert_isSome _ _ _ _).mpr (Or.inr h))

/-- Re-running build_new_nodes on its own output with the same fetched list
only re-stamps updated_at: created_at is carried unchanged. -/
theorem build_new_nodes_roundtrip (old_nodes : List (String × ProxyNode))
    (nodes_list : List ProxyNode) (now1 now2 : Nat) :
    build_new_nodes (build_new_nodes old_nodes nodes_list now1) nodes_list now2 =
      mapValues (fun n => { n with updated_at := now2 })
        (build_new_nodes old_nodes nodes_list now1) := by
  have hfold :
      ∀ (rest : List ProxyNode) (acc : List (String × ProxyNode)),
        (∀ node ∈ rest,
          new_node_value (build_new_nodes old_nodes nodes_list now1) now2 node =
            (fun n : ProxyNode => { n with updated_at := now2 })
              (new_node_value old_nodes now1 node)) →
        rest.foldl
            (fun acc node =>
              dictInsert node.uid
                (new_node_value (build_new_nodes old_nodes nodes_list now1) now2 node) acc)
            (mapValues (fun n => { n with updated_at := now2 }) acc) =
          mapValues (fun n => { n with updated_at := now2 })
            (rest.foldl
              (fun acc node => dictInsert node.uid (new_node_value old_nodes now1 node) acc)
              acc) := by
    intro rest
    induction rest with
    | nil => intro acc _; rfl
    | cons node r ih =>
      intro acc hval
      simp only [List.foldl_cons]
      have hstep : dictInsert node.uid
          (new_node_value (build_new_nodes old_nodes nodes_list now1) now2 node)
          (mapValues (fun n => { n with updated_at := now2 }) acc) =
          mapValues (fun n => { n with updated_at := now2 })
            (dictInsert node.uid (new_node_value old_nodes now1 node) acc) := by
        rw [hval node (List.mem_cons_self _ _)]
        exact dictInsert_mapValues (fun n : ProxyNode => { n with updated_at := now2 })
          node.uid (new_node_value old_nodes now1 node) acc
      rw [hstep]
      exact ih _ fun node' h => hval node' (List.mem_cons_of_mem _ h)
  rw [build_new_nodes_eq_foldl (build_new_nodes old_nodes nodes_list now1) nodes_list now2,
    build_new_nodes_eq_foldl old_nodes nodes_list now1]
  have := hfold nodes_list [] ?_
  · simpa [build_new_nodes_eq_foldl] using this
  · intro node hmem
    have hsome : (dictGet node.uid (build_new_nodes old_nodes nodes_list now1)).isSome =
        true := by
      rw [build_new_nodes_eq_foldl]
      exact bnn_fold_isSome old_nodes now1 nodes_list [] node.uid
        (Or.inl (List.mem_map.mpr ⟨node, hmem, rfl⟩))
    obtain ⟨n1, hn1⟩ := Option.isSome_iff_exists.mp hsome
    have hfact := bnn_fold_value old_nodes now1 nodes_list []
      (by intro uid n h; simp [dictGet] at h) node.uid n1
      (by rw [← build_new_nodes_eq_foldl]; exact hn1)
    unfold new_node_value
    rw [hn1]
    have : n1.created_at = (match dictGet node.uid old_nodes with
        | some existing => existing.created_at
        | none => now1) := hfact.1
    rw [← this]
theorem string_append_right_cancel {u1 u2 s : String} (h : u1 ++ s = u2 ++ s) : u1 = u2 := by
  have hd : u1.data ++ s.data = u2.data ++ s.data := by
    rw [← String.data_append, ← String.data_append, h]
  have := List.append_cancel_right hd
  cases u1
  cases u2
  exact congrArg String.mk this

/-- The two derived endpoint ids of one node are distinct, and the ids derived
from distinct uids never collide across protocols: ":socks5" and ":http" are
not suffixes of one another. -/
theorem socks_http_id_ne (u1 u2 : String) : u1 ++ ":socks5" ≠ u2 ++ ":http" := by
  intro h
  have hd : u1.data ++ ":socks5".data = u2.data ++ ":http".data := by
    rw [← String.data_append, ← String.data_append, h]
  have hr := congrArg (fun l : List Char => (l.reverse.take 5)) hd
  simp only [List.reverse_append] at hr
  rw [List.take_append_of_le_length (by decide),
    List.take_append_of_le_length (by decide)] at hr
  exact absurd hr (by decide)

theorem same_uid_id_ne (u : String) : u ++ ":socks5" ≠ u ++ ":http" := by
  intro h
  have := List.append_cancel_left (by
    rw [← String.data_append, ← String.data_append, h] :
    u.data ++ ":socks5".data = u.data ++ ":http".data)
  exact absurd this (by decide)

theorem assign_preserves_entry {r : PortRegistry} {uid : String} {e : PortEntry}
    (h : dictGet uid r.entries = some e) (n : String) :
    dictGet uid (r.assign n).2.entries = some e := by
  unfold PortRegistry.assign
  cases hn : dictGet n r.entries with
  | some entry => simpa using h
  | none =>
    have hne : n ≠ uid := by
      intro heq
      subst heq
      rw [h] at hn
      exact Option.noConfusion hn
    have hentries : (r.next_available_socks.2.next_available_http.2).entries = r.entries := by
      obtain ⟨-, -, hseq⟩ := PortRegistry.next_available_socks_spec r
      obtain ⟨-, -, hheq⟩ := PortRegistry.next_available_http_spec r.next_available_socks.2
      rw [hheq, hseq]
    simp only
    rw [dictGet_insert_ne hne, hentries]
    exact h

/-- The endpoint-building loop never touches an existing port reservation. -/
theorem build_endpoints_preserves_entry (settings : Settings)
    (old : List (String × ProxyEndpoint)) (now : Nat) :
    ∀ (nodes : List ProxyNode) (eps : List (String × ProxyEndpoint)) (reg : PortRegistry)
      (uid : String) (e : PortEntry), dictGet uid reg.entries = some e →
      dictGet uid ((build_endpoints settings old now nodes (eps, reg)).2).entries = some e := by
  intro nodes
  induction nodes with
  | nil => exact fun eps reg uid e h => h
  | cons node rest ih =>
    intro eps reg uid e h
    simp only [build_endpoints]
    exact ih _ _ uid e (assign_preserves_entry h node.uid)

/-- After the loop, every processed node holds a reservation. -/
theorem build_endpoints_reg_some (settings : Settings)
    (old : List (String × ProxyEndpoint)) (now : Nat) :
    ∀ (nodes : List ProxyNode) (eps : List (String × ProxyEndpoint)) (reg : PortRegistry)
      (node : ProxyNode), node ∈ nodes →
      (dictGet node.uid ((build_endpoints settings old now nodes (eps, reg)).2).entries).isSome
        = true := by
  intro nodes
  induction nodes with
  | nil => intro eps reg node h; simp at h
  | cons node0 rest ih =>
    intro eps reg node h
    simp only [build_endpoints]
    rcases List.mem_cons.mp h with h | h
    · subst h
      have hrec := assign_records reg node.uid
      rw [build_endpoints_preserves_entry settings old now rest _ _ node.uid _ hrec]
      rfl
    · exact ih _ _ node h

/-- When every node already holds a reservation, the loop leaves the registry
untouched. -/
theorem build_endpoints_reg_unchanged (settings : Settings)
    (old : List (String × ProxyEndpoint)) (now : Nat) :
    ∀ (nodes : List ProxyNode) (eps : List (String × ProxyEndpoint)) (reg : PortRegistry),
      (∀ node ∈ nodes, (dictGet node.uid reg.entries).isSome = true) →
      (build_endpoints settings old now nodes (eps, reg)).2 = reg := by
  intro nodes
  induction nodes with
  | nil => intro eps reg _; rfl
  | cons node rest ih =>
    intro eps reg hall
    obtain ⟨e, he⟩ := Option.isSome_iff_exists.mp (hall node (List.mem_cons_self _ _))
    simp only [build_endpoints]
    rw [assign_of_mem reg node.uid e he]
    exact ih _ _ fun node' h => hall node' (List.mem_cons_of_mem _ h)

/-- Every id in the built endpoint map is either carried from the accumulator
or derived from a processed node and an enabled protocol. -/
theorem build_endpoints_dom (settings : Settings)
    (old : List (String × ProxyEndpoint)) (now : Nat) :
    ∀ (nodes : List ProxyNode) (eps : List (String × ProxyEndpoint)) (reg : PortRegistry)
      (id : String),
      (dictGet id ((build_endpoints settings old now nodes (eps, reg)).1)).isSome = true →
      (dictGet id eps).isSome = true ∨
        ∃ node ∈ nodes,
          ("socks5" ∈ settings.supports_protocol ∧ id = node.uid ++ ":socks5") ∨
          ("http" ∈ settings.supports_protocol ∧ id = node.uid ++ ":http") := by
  intro nodes
  induction nodes with
  | nil => exact fun eps reg id h => Or.inl h
  | cons node rest ih =>
    intro eps reg id h
    simp only [build_endpoints] at h
    rcases ih _ _ id h with hacc | ⟨node', hmem, hcase⟩
    · -- the id came through the (up to two) inserts of this node
      by_cases hhttp : "http" ∈ settings.supports_protocol
      · simp only [hhttp, if_true] at hacc
        rcases (dictGet_insert_isSome _ _ _ _).mp hacc with heq | hacc2
        · exact Or.inr ⟨node, List.mem_cons_self _ _, Or.inr ⟨hhttp, heq⟩⟩
        · by_cases hsocks : "socks5" ∈ settings.supports_protocol
          · simp only [hsocks, if_true] at hacc2
            rcases (dictGet_insert_isSome _ _ _ _).mp hacc2 with heq | hacc3
            · exact Or.inr ⟨node, List.mem_cons_self _ _, Or.inl ⟨hsocks, heq⟩⟩
            · exact Or.inl hacc3
          · simp only [hsocks, if_false] at hacc2
            exact Or.inl hacc2
      · simp only [hhttp, if_false] at hacc
        by_cases hsocks : "socks5" ∈ settings.supports_protocol
        · simp only [hsocks, if_true] at hacc
          rcases (dictGet_insert_isSome _ _ _ _).mp hacc with heq | hacc2
          · exact Or.inr ⟨node, List.mem_cons_self _ _, Or.inl ⟨hsocks, heq⟩⟩
          · exact Or.inl hacc2
        · simp only [hsocks, if_false] at hacc
          exact Or.inl hacc
    · exact Or.inr ⟨node', List.mem_cons_of_mem _ hmem, hcase⟩
/-- Keys not derived from any processed node pass through the loop
unchanged. -/
theorem build_endpoints_preserves_eps (settings : Settings)
    (old : List (String × ProxyEndpoint)) (now : Nat) :
    ∀ (nodes : List ProxyNode) (eps : List (String × ProxyEndpoint)) (reg : PortRegistry)
      (k : String),
      (∀ node ∈ nodes, k ≠ node.uid ++ ":socks5" ∧ k ≠ node.uid ++ ":http") →
      dictGet k ((build_endpoints settings old now nodes (eps, reg)).1) = dictGet k eps := by
  intro nodes
  induction nodes with
  | nil => intro eps reg k _; rfl
  | cons node rest ih =>
    intro eps reg k hk
    simp only [build_endpoints]
    rw [ih _ _ k fun node' h => hk node' (List.mem_cons_of_mem _ h)]
    have hks := (hk node (List.mem_cons_self _ _)).1
    have hkh := (hk node (List.mem_cons_self _ _)).2
    by_cases hhttp : "http" ∈ settings.supports_protocol <;>
      by_cases hsocks : "socks5" ∈ settings.supports_protocol <;>
      simp only [hhttp, hsocks, if_true, if_false] <;>
      try rw [dictGet_insert_ne (Ne.symm hkh)] <;>
      try rw [dictGet_insert_ne (Ne.symm hks)]
    all_goals try rw [dictGet_insert_ne (Ne.symm hks)]
    all_goals rfl

/-- The central loop invariant: each processed node ends with a reservation e,
and (per enabled protocol) the built endpoint map carries exactly the endpoint
constructed from that node with e's port. -/
theorem build_endpoints_ports (settings : Settings)
    (old : List (String × ProxyEndpoint)) (now : Nat) :
    ∀ (nodes : List ProxyNode) (eps : List (String × ProxyEndpoint)) (reg : PortRegistry),
      (nodes.map (fun n => n.uid)).Nodup →
      ∀ node ∈ nodes, ∃ e : PortEntry,
        dictGet node.uid ((build_endpoints settings old now nodes (eps, reg)).2).entries =
          some e ∧
        ("socks5" ∈ settings.supports_protocol →
          dictGet (node.uid ++ ":socks5") ((build_endpoints settings old now nodes
              (eps, reg)).1) =
            some (build_endpoint settings old node "socks5" (node.uid ++ ":socks5")
              e.socks_port now)) ∧
        ("http" ∈ settings.supports_protocol →
          dictGet (node.uid ++ ":http") ((build_endpoints settings old now nodes
              (eps, reg)).1) =
            some (build_endpoint settings old node "http" (node.uid ++ ":http")
              e.http_port now)) := by
  intro nodes
  induction nodes with
  | nil => intro eps reg _ node h; simp at h
  | cons node0 rest ih =>
    intro eps reg hnd node hmem
    have hnd0 : node0.uid ∉ rest.map (fun n => n.uid) := by
      simp only [List.map_cons, List.nodup_cons] at hnd
      exact hnd.1
    have hndrest : (rest.map (fun n => n.uid)).Nodup := by
      simp only [List.map_cons, List.nodup_cons] at hnd
      exact hnd.2
    rcases List.mem_cons.mp hmem with h | h
    · subst h
      refine ⟨⟨(reg.assign node.uid).1.1, (reg.assign node.uid).1.2⟩, ?_, ?_, ?_⟩
      · simp only [build_endpoints]
        exact build_endpoints_preserves_entry settings old now rest _ _ node.uid _
          (assign_records reg node.uid)
      · intro hsocks
        simp only [build_endpoints]
        have hpres : ∀ node' ∈ rest, node.uid ++ ":socks5" ≠ node'.uid ++ ":socks5" ∧
            node.uid ++ ":socks5" ≠ node'.uid ++ ":http" := by
          intro node' h'
          constructor
          · intro heq
            exact hnd0 (List.mem_map.mpr ⟨node', h',
              (string_append_right_cancel heq).symm⟩)
          · exact socks_http_id_ne _ _
        rw [build_endpoints_preserves_eps settings old now rest _ _ _ hpres]
        by_cases hhttp : "http" ∈ settings.supports_protocol <;>
          simp only [hhttp, hsocks, if_true, if_false]
        · rw [dictGet_insert_ne (Ne.symm (same_uid_id_ne node.uid))]
          exact dictGet_insert_self _ _ _
        · exact dictGet_insert_self _ _ _
      · intro hhttp
        simp only [build_endpoints]
        have hpres : ∀ node' ∈ rest, node.uid ++ ":http" ≠ node'.uid ++ ":socks5" ∧
            node.uid ++ ":http" ≠ node'.uid ++ ":http" := by
          intro node' h'
          constructor
          · exact fun heq => socks_http_id_ne node'.uid node.uid heq.symm
          · intro heq
            exact hnd0 (List.mem_map.mpr ⟨node', h',
              (string_append_right_cancel heq).symm⟩)
        rw [build_endpoints_preserves_eps settings old now rest _ _ _ hpres]
        simp only [hhttp, if_true]
        exact dictGet_insert_self _ _ _
    · simp only [build_endpoints]
      exact ih _ _ hndrest node h

theorem dictKeys_mapValues {α β : Type} (f : α → β) (l : List (String × α)) :
    dictKeys (mapValues f l) = dictKeys l := by
  induction l with
  | nil => rfl
  | cons hd tl ih =>
    simp only [dictKeys, mapValues, List.map_cons] at ih ⊢
    exact congrArg (List.cons hd.1) ih

theorem dictValues_mapValues {α β : Type} (f : α → β) (l : List (String × α)) :
    dictValues (mapValues f l) = (dictValues l).map f := by
  induction l with
  | nil => rfl
  | cons hd tl ih =>
    simp only [dictValues, mapValues, List.map_cons] at ih ⊢
    exact congrArg (List.cons (f hd.2)) ih

theorem bnn_fold_keys_nodup (old_nodes : List (String × ProxyNode)) (now : Nat) :
    ∀ (nodes_list : List ProxyNode) (acc : List (String × ProxyNode)),
      (dictKeys acc).Nodup →
      (dictKeys (nodes_list.foldl
        (fun acc node => dictInsert node.uid (new_node_value old_nodes now node) acc)
        acc)).Nodup := by
  intro nodes_list
  induction nodes_list with
  | nil => exact fun acc h => h
  | cons node rest ih =>
    intro acc h
    simp only [List.foldl_cons]
    exact ih _ (dictKeys_insert_nodup h node.uid _)

theorem build_new_nodes_keys_nodup (old_nodes : List (String × ProxyNode))
    (nodes_list : List ProxyNode) (now : Nat) :
    (dictKeys (build_new_nodes old_nodes nodes_list now)).Nodup := by
  rw [build_new_nodes_eq_foldl]
  exact bnn_fold_keys_nodup old_nodes now nodes_list [] (by simp [dictKeys])

/-- Every binding written by build_new_nodes carries a value whose uid is its
key. -/
theorem build_new_nodes_uid_eq_key (old_nodes : List (String × ProxyNode))
    (nodes_list : List ProxyNode) (now : Nat) :
    ∀ p ∈ build_new_nodes old_nodes nodes_list now, p.2.uid = p.1 := by
  intro p hp
  have hget : dictGet p.1 (build_new_nodes old_nodes nodes_list now) = some p.2 :=
    dictGet_of_mem_nodup hp (build_new_nodes_keys_nodup _ _ _)
  have hfact := bnn_fold_value old_nodes now nodes_list []
    (by intro u m hm; simp [dictGet] at hm) p.1 p.2
    (by rw [← build_new_nodes_eq_foldl]; exact hget)
  exact hfact.2.2

theorem dictValues_map_uid (l : List (String × ProxyNode)) (h : ∀ p ∈ l, p.2.uid = p.1) :
    (dictValues l).map (fun n => n.uid) = dictKeys l := by
  induction l with
  | nil => rfl
  | cons hd tl ih =>
    simp only [dictValues, dictKeys, List.map_cons]
    rw [h hd (List.mem_cons_self _ _)]
    exact congrArg (List.cons hd.1) (ih fun p hp => h p (List.mem_cons_of_mem _ hp))

theorem dictGet_uid_of_mem_values {l : List (String × ProxyNode)}
    (hkeys : (dictKeys l).Nodup) (huid : ∀ p ∈ l, p.2.uid = p.1)
    {node : ProxyNode} (h : node ∈ dictValues l) : dictGet node.uid l = some node := by
  obtain ⟨p, hp, hpe⟩ := List.mem_map.mp h
  obtain ⟨k, v⟩ := p
  have hpe2 : v = node := hpe
  rw [← hpe2]
  have hu : v.uid = k := huid (k, v) hp
  rw [hu]
  exact dictGet_of_mem_nodup hp hkeys

/-- When the new node map is the old one with re-stamped values, the
removed-node scan of refresh finds nothing. -/
theorem filter_isNone_mapValues {α β : Type} (f : α → β) (l : List (String × α)) :
    ((dictKeys l).filter fun k => (dictGet k (mapValues f l)).isNone) = [] := by
  rw [List.filter_eq_nil_iff]
  intro k hk
  rw [dictGet_mapValues]
  obtain ⟨v, hv⟩ := Option.isSome_iff_exists.mp ((dictGet_isSome_iff k l).mpr hk)
  rw [hv]
  simp

/-- build_endpoint written as one explicit record. -/
theorem build_endpoint_eq (settings : Settings) (old : List (String × ProxyEndpoint))
    (node : ProxyNode) (protocol endpoint_id : String) (port now : Nat) :
    build_endpoint settings old node protocol endpoint_id port now =
      { id := endpoint_id
        node_uid := node.uid
        protocol := protocol
        host := settings.listen_host
        port := port
        public_host := settings.public_host
        country := node.country
        country_code := node.country_code
        name := node.name
        available :=
          match dictGet endpoint_id old with
          | some existing => existing.available
          | none => false
        created_at :=
          match dictGet endpoint_id old with
          | some existing => existing.created_at
          | none => now
        updated_at := now
        last_checked :=
          match dictGet endpoint_id old with
          | some existing => existing.last_checked
          | none => none } := by
  unfold build_endpoint
  cases dictGet endpoint_id old <;> rfl

theorem glider_transform_enabled (settings : Settings) (ensure : GliderEnsure)
    (new_nodes : List (String × ProxyNode)) (now : Nat) (ep : ProxyEndpoint)
    (node : ProxyNode) (hen : settings.enable_glider = true)
    (hget : dictGet ep.node_uid new_nodes = some node) :
    glider_transform settings ensure new_nodes now ep =
      { ep with
        available := ensure ep.id node.backend_uri
        updated_at := now
        last_checked := if ensure ep.id node.backend_uri then some now
          else ep.last_checked } := by
  unfold glider_transform
  simp only [hen, hget]
  rfl

theorem glider_transform_disabled (settings : Settings) (ensure : GliderEnsure)
    (new_nodes : List (String × ProxyNode)) (now : Nat) (ep : ProxyEndpoint)
    (hen : settings.enable_glider = false) :
    glider_transform settings ensure new_nodes now ep =
      { ep with available := false, updated_at := now } := by
  unfold glider_transform
  simp only [hen]
  rfl

/-- The endpoint fields the spec requires to be preserved between two
byte-identical refreshes: everything except updated_at and last_checked. -/
def ep_core (ep : ProxyEndpoint) :
    String × String × String × String × Nat × String × Option String × Option String ×
      Option String × Bool × Nat :=
  (ep.id, ep.node_uid, ep.protocol, ep.host, ep.port, ep.public_host, ep.country,
    ep.country_code, ep.name, ep.available, ep.created_at)

/-- Re-building and re-checking one endpoint in the second run reproduces every
field but updated_at / last_checked of the endpoint from the first run. -/
theorem roundtrip_core (settings : Settings) (ensure : GliderEnsure)
    (N1 N2 : List (String × ProxyNode)) (old1 E1 : List (String × ProxyEndpoint))
    (node1 node2 : ProxyNode) (p id : String) (port now1 now2 : Nat)
    (hn2 : node2 = { node1 with updated_at := now2 })
    (hN1 : dictGet node1.uid N1 = some node1)
    (hN2 : dictGet node1.uid N2 = some node2)
    (hE1 : dictGet id E1 = some (glider_transform settings ensure N1 now1
        (build_endpoint settings old1 node1 p id port now1))) :
    ep_core (glider_transform settings ensure N2 now2
        (build_endpoint settings E1 node2 p id port now2)) =
      ep_core (glider_transform settings ensure N1 now1
        (build_endpoint settings old1 node1 p id port now1)) := by
  subst hn2
  cases hen : settings.enable_glider with
  | false =>
    rw [build_endpoint_eq settings E1 { node1 with updated_at := now2 } p id port now2, hE1]
    rw [glider_transform_disabled settings ensure N2 now2 _ hen]
    rw [glider_transform_disabled settings ensure N1 now1 _ hen]
    rw [build_endpoint_eq settings old1 node1 p id port now1]
    rfl
  | true =>
    have hg2 : dictGet ({ node1 with updated_at := now2 } : ProxyNode).uid N2 =
        some { node1 with updated_at := now2 } := hN2
    have hgb1 : dictGet (build_endpoint settings old1 node1 p id port now1).node_uid N1 =
        some node1 := by
      rw [build_endpoint_eq]
      exact hN1
    rw [build_endpoint_eq settings E1 { node1 with updated_at := now2 } p id port now2, hE1]
    rw [glider_transform_enabled settings ensure N2 now2 _ _ hen hg2]
    rw [glider_transform_enabled settings ensure N1 now1 _ _ hen hgb1]
    rw [build_endpoint_eq settings old1 node1 p id port now1]
    rfl
/-- The truncation of the fetched node list applied at the top of refresh. -/
def refresh_trunc (settings : Settings) (loaded : List ProxyNode) : List ProxyNode :=
  if settings.max_endpoints ≠ 0 ∧ loaded.length > settings.max_endpoints then
    loaded.take settings.max_endpoints
  else loaded

/-- The registry after refresh releases the ports of removed nodes. -/
def refresh_reg1 (st : ManagerState) (new_nodes : List (String × ProxyNode)) : PortRegistry :=
  ((dictKeys st.nodes).filter fun k => (dictGet k new_nodes).isNone).foldl
    PortRegistry.release st.port_registry

/-- The heart of C1, phrased over refresh's intermediate values: re-running the
pipeline on its own output with the same fetched list reproduces the node map
(modulo updated_at), the port registry exactly, the endpoint id set exactly,
and every endpoint up to updated_at / last_checked. -/
theorem refresh_core (settings : Settings) (ensure : GliderEnsure) (st : ManagerState)
    (nlist : List ProxyNode) (now1 now2 : Nat)
    (N1 N2 : List (String × ProxyNode)) (be1 be2 : List (String × ProxyEndpoint) × PortRegistry)
    (E1 E2 : List (String × ProxyEndpoint))
    (hN1 : N1 = build_new_nodes st.nodes nlist now1)
    (hbe1 : be1 = build_endpoints settings st.endpoints now1 (dictValues N1)
      ([], refresh_reg1 st N1))
    (hE1 : E1 = apply_glider settings ensure N1 be1.1 now1)
    (hN2 : N2 = build_new_nodes N1 nlist now2)
    (hbe2 : be2 = build_endpoints settings E1 now2 (dictValues N2)
      ([], ((dictKeys N1).filter fun k => (dictGet k N2).isNone).foldl
        PortRegistry.release be1.2.save))
    (hE2 : E2 = apply_glider settings ensure N2 be2.1 now2) :
    N2 = mapValues (fun n => { n with updated_at := now2 }) N1 ∧
    be2.2.save = be1.2.save ∧
    (∀ id, (dictGet id E2).isSome = true ↔ (dictGet id E1).isSome = true) ∧
    (∀ id ep2, dictGet id E2 = some ep2 →
      ∃ ep1, dictGet id E1 = some ep1 ∧ ep_core ep2 = ep_core ep1) := by
  have hrt : N2 = mapValues (fun n => { n with updated_at := now2 }) N1 := by
    rw [hN2, hN1]
    exact build_new_nodes_roundtrip _ _ _ _
  have hknd1 : (dictKeys N1).Nodup := hN1 ▸ build_new_nodes_keys_nodup _ _ _
  have huid1 : ∀ p ∈ N1, p.2.uid = p.1 := hN1 ▸ build_new_nodes_uid_eq_key _ _ _
  have hknd2 : (dictKeys N2).Nodup := hN2 ▸ build_new_nodes_keys_nodup _ _ _
  have huid2 : ∀ p ∈ N2, p.2.uid = p.1 := hN2 ▸ build_new_nodes_uid_eq_key _ _ _
  have hvk1 : (dictValues N1).map (fun n => n.uid) = dictKeys N1 := dictValues_map_uid N1 huid1
  have hvk2 : (dictValues N2).map (fun n => n.uid) = dictKeys N2 := dictValues_map_uid N2 huid2
  have hvnd1 : ((dictValues N1).map fun n => n.uid).Nodup := by rw [hvk1]; exact hknd1
  have hvnd2 : ((dictValues N2).map fun n => n.uid).Nodup := by rw [hvk2]; exact hknd2
  have hval21 : ∀ node2 ∈ dictValues N2, ∃ node1 ∈ dictValues N1,
      node2 = { node1 with updated_at := now2 } := by
    rw [hrt, dictValues_mapValues]
    intro node2 hmem
    obtain ⟨node1, h1, he⟩ := List.mem_map.mp hmem
    exact ⟨node1, h1, he.symm⟩
  have hrem : ((dictKeys N1).filter fun k => (dictGet k N2).isNone) = [] := by
    rw [hrt]
    exact filter_isNone_mapValues _ N1
  have hbe2s : be2 = build_endpoints settings E1 now2 (dictValues N2) ([], be1.2.save) := by
    rw [hbe2, hrem]
    rfl
  have hres : ∀ node ∈ dictValues N2, (dictGet node.uid (be1.2.save).entries).isSome = true := by
    intro node hmem
    obtain ⟨node1, hmem1, hne⟩ := hval21 node hmem
    have hud : node.uid = node1.uid := (congrArg ProxyNode.uid hne).trans rfl
    have h := build_endpoints_reg_some settings st.endpoints now1 (dictValues N1) []
      (refresh_reg1 st N1) node1 hmem1
    rw [← hbe1] at h
    rw [hud]
    exact h
  have hreg2 : be2.2 = be1.2.save := by
    rw [hbe2s]
    exact build_endpoints_reg_unchanged settings E1 now2 (dictValues N2) [] (be1.2.save) hres
  have hregsave : be2.2.save = be1.2.save := by
    rw [hreg2]
    rfl
  have hports1 := build_endpoints_ports settings st.endpoints now1 (dictValues N1) []
    (refresh_reg1 st N1) hvnd1
  have hports2 := build_endpoints_ports settings E1 now2 (dictValues N2) []
    (be1.2.save) hvnd2
  have hmain : ∀ id ep2, dictGet id E2 = some ep2 →
      ∃ ep1, dictGet id E1 = some ep1 ∧ ep_core ep2 = ep_core ep1 := by
    intro id ep2 hep2
    rw [hE2] at hep2
    simp only [apply_glider] at hep2
    rw [dictGet_mapValues] at hep2
    cases hb2get : dictGet id be2.1 with
    | none =>
      rw [hb2get] at hep2
      exact absurd hep2 (by simp)
    | some b2 =>
      rw [hb2get] at hep2
      have hx : some (glider_transform settings ensure N2 now2 b2) = some ep2 := hep2
      have hep2v : ep2 = glider_transform settings ensure N2 now2 b2 := (Option.some.inj hx).symm
      rw [hbe2s] at hb2get
      have hdom := build_endpoints_dom settings E1 now2 (dictValues N2) [] (be1.2.save) id
        (by rw [hb2get]; rfl)
      rcases hdom with habs | ⟨node2, hmem2, hcase⟩
      · exact absurd habs (by simp [dictGet])
      obtain ⟨node1, hmem1, hnode2⟩ := hval21 node2 hmem2
      have hud : node2.uid = node1.uid := (congrArg ProxyNode.uid hnode2).trans rfl
      obtain ⟨e1, he1reg, he1s, he1h⟩ := hports1 node1 hmem1
      rw [← hbe1] at he1reg he1s he1h
      obtain ⟨e2, he2reg, he2s, he2h⟩ := hports2 node2 hmem2
      have hee : e2 = e1 := by
        rw [← hbe2s, hreg2, hud] at he2reg
        have he2reg2 : dictGet node1.uid be1.2.entries = some e2 := he2reg
        exact Option.some.inj (he2reg2.symm.trans he1reg)
      have hN1get : dictGet node1.uid N1 = some node1 :=
        dictGet_uid_of_mem_values hknd1 huid1 hmem1
      have hN2get : dictGet node1.uid N2 = some node2 := by
        rw [hrt, dictGet_mapValues, hN1get, hnode2]
        rfl
      rcases hcase with ⟨hsp, hid⟩ | ⟨hhp, hid⟩
      · have h2s := he2s hsp
        rw [← hid, hee] at h2s
        have hb2v : b2 = build_endpoint settings E1 node2 "socks5" id e1.socks_port now2 :=
          Option.some.inj (hb2get.symm.trans h2s)
        have h1s := he1s hsp
        have hid1 : id = node1.uid ++ ":socks5" := by rw [hid, hud]
        rw [← hid1] at h1s
        have hep1get : dictGet id E1 = some (glider_transform settings ensure N1 now1
            (build_endpoint settings st.endpoints node1 "socks5" id e1.socks_port now1)) := by
          rw [hE1]
          simp only [apply_glider]
          rw [dictGet_mapValues, h1s]
          rfl
        refine ⟨_, hep1get, ?_⟩
        rw [hep2v, hb2v]
        exact roundtrip_core settings ensure N1 N2 st.endpoints E1 node1 node2 "socks5" id
          e1.socks_port now1 now2 hnode2 hN1get hN2get hep1get
      · have h2h := he2h hhp
        rw [← hid, hee] at h2h
        have hb2v : b2 = build_endpoint settings E1 node2 "http" id e1.http_port now2 :=
          Option.some.inj (hb2get.symm.trans h2h)
        have h1h := he1h hhp
        have hid1 : id = node1.uid ++ ":http" := by rw [hid, hud]
        rw [← hid1] at h1h
        have hep1get : dictGet id E1 = some (glider_transform settings ensure N1 now1
            (build_endpoint settings st.endpoints node1 "http" id e1.http_port now1)) := by
          rw [hE1]
          simp only [apply_glider]
          rw [dictGet_mapValues, h1h]
          rfl
        refine ⟨_, hep1get, ?_⟩
        rw [hep2v, hb2v]
        exact roundtrip_core settings ensure N1 N2 st.endpoints E1 node1 node2 "http" id
          e1.http_port now1 now2 hnode2 hN1get hN2get hep1get
  refine ⟨hrt, hregsave, ?_, hmain⟩
  intro id
  constructor
  · intro h
    obtain ⟨ep2, hep2⟩ := Option.isSome_iff_exists.mp h
    obtain ⟨ep1, h1, -⟩ := hmain id ep2 hep2
    rw [h1]
    rfl
  · intro h
    obtain ⟨ep1, hep1⟩ := Option.isSome_iff_exists.mp h
    rw [hE1] at hep1
    simp only [apply_glider] at hep1
    rw [dictGet_mapValues] at hep1
    have hb1 : (dictGet id be1.1).isSome = true := by
      cases hg : dictGet id be1.1 with
      | none =>
        rw [hg] at hep1
        exact absurd hep1 (by simp)
      | some b1 => rfl
    have hb1x : (dictGet id (build_endpoints settings st.endpoints now1 (dictValues N1)
        ([], refresh_reg1 st N1)).1).isSome = true := by
      rw [← hbe1]
      exact hb1
    rcases build_endpoints_dom settings st.endpoints now1 (dictValues N1) []
        (refresh_reg1 st N1) id hb1x with habs | ⟨node1, hmem1, hcase⟩
    · exact absurd habs (by simp [dictGet])
    have hmem2 : ({ node1 with updated_at := now2 } : ProxyNode) ∈ dictValues N2 := by
      rw [hrt, dictValues_mapValues]
      exact List.mem_map.mpr ⟨node1, hmem1, rfl⟩
    obtain ⟨e2, he2reg, he2s, he2h⟩ := hports2 _ hmem2
    rw [hE2]
    simp only [apply_glider]
    rw [dictGet_mapValues, hbe2s]
    rcases hcase with ⟨hsp, hid⟩ | ⟨hhp, hid⟩
    · have hid2 : id = ({ node1 with updated_at := now2 } : ProxyNode).uid ++ ":socks5" := hid
      rw [hid2, he2s hsp]
      rfl
    · have hid2 : id = ({ node1 with updated_at := now2 } : ProxyNode).uid ++ ":http" := hid
      rw [hid2, he2h hhp]
      rfl
/-- C1: refresh is identity-preserving.  Running refresh twice with
byte-identical upstream input (the same loaded node list, settings and relay
oracle) yields: a node map equal to the first run's with only updated_at
re-stamped to the second refresh time (so uid and created_at are unchanged); a
port registry identical to the first run's, so every endpoint keeps its
assigned local ports; the same endpoint id set; and every endpoint equal to
the first run's in id, node uid, protocol, host, port, public host, country,
country code, name, availability and created_at — only updated_at and
last_checked may differ.  Additionally, in the first run every node whose uid
already existed keeps its created_at while updated_at is set to the refresh
time. -/
theorem refresh_idempotent_identity (settings : Settings) (ensure : GliderEnsure)
    (st : ManagerState) (loaded : List ProxyNode) (now1 now2 : Nat)
    (st1 st2 : ManagerState) (c1 c2 : Nat × Nat × Nat)
    (h1 : refresh settings ensure st loaded now1 = (st1, c1))
    (h2 : refresh settings ensure st1 loaded now2 = (st2, c2)) :
    st2.nodes = mapValues (fun n => { n with updated_at := now2 }) st1.nodes ∧
    st2.port_registry = st1.port_registry ∧
    (∀ uid n0 n, dictGet uid st.nodes = some n0 → dictGet uid st1.nodes = some n →
      n.created_at = n0.created_at ∧ n.updated_at = now1) ∧
    (∀ id, (dictGet id st2.endpoints).isSome = true ↔
      (dictGet id st1.endpoints).isSome = true) ∧
    (∀ id ep2, dictGet id st2.endpoints = some ep2 →
      ∃ ep1, dictGet id st1.endpoints = some ep1 ∧ ep_core ep2 = ep_core ep1) := by
  have hst1 : st1 = (refresh settings ensure st loaded now1).1 := by rw [h1]
  have hst2 : st2 = (refresh settings ensure st1 loaded now2).1 := by rw [h2]
  subst hst2
  subst hst1
  obtain ⟨hA, hB, hC, hD⟩ := refresh_core settings ensure st (refresh_trunc settings loaded)
    now1 now2 _ _ _ _ _ _ rfl rfl rfl rfl rfl rfl
  refine ⟨hA, hB, ?_, hC, hD⟩
  intro uid n0 n hg0 hg1
  have hg1x : dictGet uid (build_new_nodes st.nodes (refresh_trunc settings loaded) now1) =
      some n := hg1
  have hv := bnn_fold_value st.nodes now1 (refresh_trunc settings loaded) []
    (by intro u m hm; simp [dictGet] at hm) uid n
    (by rw [← build_new_nodes_eq_foldl]; exact hg1x)
  refine ⟨?_, hv.2.1⟩
  have hc := hv.1
  rw [hg0] at hc
  exact hc

/-- Concrete inputs for the C1 witness: a fresh manager state, one fetched
node, glider enabled with an always-alive relay oracle. -/
def nodeC1 : ProxyNode :=
  { uid := "u1", backend_uri := "ss://x@h:1", schema := "ss", server := "h", port := 1,
    country := none, country_code := none, name := none, source := "s",
    created_at := 0, updated_at := 0 }

def settingsC1 : Settings :=
  { supports_protocol := ["socks5", "http"], listen_host := "127.0.0.1",
    public_host := "pub", enable_glider := true, max_endpoints := 0,
    cache_ttl_seconds := 1 }

def stC1 : ManagerState :=
  { nodes := [], endpoints := [], usage := [], cache := SelectionCache.init 1,
    port_registry := PortRegistry.init 100 200, last_refresh := none }

def ensureC1 : GliderEnsure := fun _ _ => true

/-- Witness for C1 at a concrete state: the second refresh keeps the node map
(up to updated_at), the port registry, and every field of the socks5 endpoint
except updated_at / last_checked. -/
theorem refresh_idempotent_identity_witness :
    (refresh settingsC1 ensureC1
          (refresh settingsC1 ensureC1 stC1 [nodeC1] 5).1 [nodeC1] 9).1.nodes =
        mapValues (fun n => { n with updated_at := 9 })
          (refresh settingsC1 ensureC1 stC1 [nodeC1] 5).1.nodes ∧
      (refresh settingsC1 ensureC1
          (refresh settingsC1 ensureC1 stC1 [nodeC1] 5).1 [nodeC1] 9).1.port_registry =
        (refresh settingsC1 ensureC1 stC1 [nodeC1] 5).1.port_registry := by
  have h := refresh_idempotent_identity settingsC1 ensureC1 stC1 [nodeC1] 5 9
    (refresh settingsC1 ensureC1 stC1 [nodeC1] 5).1
    (refresh settingsC1 ensureC1
      (refresh settingsC1 ensureC1 stC1 [nodeC1] 5).1 [nodeC1] 9).1
    (refresh settingsC1 ensureC1 stC1 [nodeC1] 5).2
    (refresh settingsC1 ensureC1
      (refresh settingsC1 ensureC1 stC1 [nodeC1] 5).1 [nodeC1] 9).2
    rfl rfl
  exact ⟨h.1, h.2.1⟩

/-! ### C6, amended statement over all reachable registry states -/

namespace PortRegistry

/-- assign on a missing node id, written as one explicit record. -/
theorem assign_miss_spec (r : PortRegistry) (n : String)
    (hget : dictGet n r.entries = none) :
    r.assign n = ((r.next_available_socks.1, r.next_available_socks.2.next_available_http.1),
      { entries := dictInsert n ⟨r.next_available_socks.1,
          r.next_available_socks.2.next_available_http.1⟩ r.entries
        next_socks := r.next_available_socks.1 + 1
        next_http := r.next_available_socks.2.next_available_http.1 + 1
        dirty := true }) := by
  obtain ⟨-, -, hseq⟩ := next_available_socks_spec r
  obtain ⟨-, -, hheq⟩ := next_available_http_spec r.next_available_socks.2
  unfold assign
  simp only [hget]
  rw [hheq, hseq]

/-- Every reservation's ports lie strictly below the next-candidate counters.
This holds in every state reachable from a fresh registry: assign always hands
out a port one below the advanced counter, and release never moves the
counters. -/
def CountersDominate (r : PortRegistry) : Prop :=
  ∀ e ∈ r.entries, e.2.socks_port < r.next_socks ∧ e.2.http_port < r.next_http

theorem CountersDominate_init (s h : Nat) : CountersDominate (init s h) := by
  intro e he
  simp [init] at he

theorem CountersDominate_assign {r : PortRegistry} (hcd : CountersDominate r) (n : String) :
    CountersDominate (r.assign n).2 := by
  cases hget : dictGet n r.entries with
  | some e =>
    rw [assign_of_mem r n e hget]
    exact hcd
  | none =>
    rw [assign_miss_spec r n hget]
    obtain ⟨-, hsp_ge, hseq⟩ := next_available_socks_spec r
    obtain ⟨-, hhp_ge, -⟩ := next_available_http_spec r.next_available_socks.2
    have hh2 : r.next_http ≤ r.next_available_socks.2.next_available_http.1 := by
      have hx : r.next_available_socks.2.next_http = r.next_http := by rw [hseq]
      rw [← hx]
      exact hhp_ge
    intro e he
    have he2 : e ∈ dictInsert n ⟨r.next_available_socks.1,
        r.next_available_socks.2.next_available_http.1⟩ r.entries := he
    rw [dictInsert_of_get_none _ hget] at he2
    rcases List.mem_append.mp he2 with he3 | he3
    · have h1 := hcd e he3
      constructor
      · show e.2.socks_port < r.next_available_socks.1 + 1
        omega
      · show e.2.http_port < r.next_available_socks.2.next_available_http.1 + 1
        omega
    · rw [List.mem_singleton] at he3
      subst he3
      constructor
      · show r.next_available_socks.1 < r.next_available_socks.1 + 1
        exact Nat.lt_succ_self _
      · show r.next_available_socks.2.next_available_http.1 <
          r.next_available_socks.2.next_available_http.1 + 1
        exact Nat.lt_succ_self _

theorem CountersDominate_release {r : PortRegistry} (hcd : CountersDominate r) (n : String) :
    CountersDominate (r.release n) := by
  unfold release
  by_cases h : (dictGet n r.entries).isSome <;> simp only [h, if_true, if_false]
  · intro e he
    exact hcd e ((dictRemove_sublist n r.entries).subset he)
  · exact hcd

theorem CountersDominate_applyOps (r : PortRegistry) (hcd : CountersDominate r)
    (ops : List RegOp) : CountersDominate (r.applyOps ops) := by
  induction ops generalizing r with
  | nil => exact hcd
  | cons op rest ih =>
    cases op with
    | assignOp n => exact ih _ (CountersDominate_assign hcd n)
    | releaseOp n => exact ih _ (CountersDominate_release hcd n)

/-- The ports (s, h) are unreachable for assign: both lie strictly below the
counters and neither is held (in its protocol family) by any reservation. -/
def PortAvoid (r : PortRegistry) (s h : Nat) : Prop :=
  s < r.next_socks ∧ h < r.next_http ∧
    ∀ e ∈ r.entries, e.2.socks_port ≠ s ∧ e.2.http_port ≠ h

theorem assign_avoid {r : PortRegistry} {s h : Nat} (ha : PortAvoid r s h) (n : String) :
    PortAvoid (r.assign n).2 s h ∧ (r.assign n).1.1 ≠ s ∧ (r.assign n).1.2 ≠ h := by
  obtain ⟨hs, hh, hent⟩ := ha
  cases hget : dictGet n r.entries with
  | some e =>
    rw [assign_of_mem r n e hget]
    exact ⟨⟨hs, hh, hent⟩, (hent _ (dictGet_mem hget)).1, (hent _ (dictGet_mem hget)).2⟩
  | none =>
    rw [assign_miss_spec r n hget]
    obtain ⟨-, hsp_ge, hseq⟩ := next_available_socks_spec r
    obtain ⟨-, hhp_ge, -⟩ := next_available_http_spec r.next_available_socks.2
    have hh2 : r.next_http ≤ r.next_available_socks.2.next_available_http.1 := by
      have hx : r.next_available_socks.2.next_http = r.next_http := by rw [hseq]
      rw [← hx]
      exact hhp_ge
    refine ⟨⟨?_, ?_, ?_⟩, ?_, ?_⟩
    · show s < r.next_available_socks.1 + 1
      omega
    · show h < r.next_available_socks.2.next_available_http.1 + 1
      omega
    · intro e he
      have he2 : e ∈ dictInsert n ⟨r.next_available_socks.1,
          r.next_available_socks.2.next_available_http.1⟩ r.entries := he
      rw [dictInsert_of_get_none _ hget] at he2
      rcases List.mem_append.mp he2 with he3 | he3
      · exact hent e he3
      · rw [List.mem_singleton] at he3
        subst he3
        constructor
        · show r.next_available_socks.1 ≠ s
          omega
        · show r.next_available_socks.2.next_available_http.1 ≠ h
          omega
    · show r.next_available_socks.1 ≠ s
      omega
    · show r.next_available_socks.2.next_available_http.1 ≠ h
      omega

theorem assign_trace_avoid {r : PortRegistry} {s h : Nat} (ha : PortAvoid r s h)
    (ids : List String) : ∀ p ∈ r.assign_trace ids, p.1 ≠ s ∧ p.2 ≠ h := by
  induction ids generalizing r with
  | nil => simp [assign_trace]
  | cons n rest ih =>
    intro p hp
    simp only [assign_trace, List.mem_cons] at hp
    rcases hp with hp | hp
    · subst hp
      exact ⟨(assign_avoid ha n).2.1, (assign_avoid ha n).2.2⟩
    · exact ih (assign_avoid ha n).1 p hp

end PortRegistry

/-- A member of dictRemove key l has a different key, and was a member of l
(keys unique). -/
theorem mem_dictRemove_key_ne {α : Type} {l : List (String × α)}
    (hnod : (dictKeys l).Nodup) {n : String} {p : String × α}
    (hmem : p ∈ dictRemove n l) : p.1 ≠ n ∧ p ∈ l := by
  induction l with
  | nil => simp [dictRemove] at hmem
  | cons hd tl ih =>
    obtain ⟨k, w⟩ := hd
    simp only [dictKeys, List.map_cons, List.nodup_cons] at hnod
    by_cases hk : k = n
    · subst hk
      simp only [dictRemove, if_pos rfl] at hmem
      constructor
      · intro hpn
        exact hnod.1 (List.mem_map.mpr ⟨p, hmem, hpn⟩)
      · exact List.mem_cons_of_mem _ hmem
    · simp only [dictRemove, if_neg hk, List.mem_cons] at hmem
      rcases hmem with heq | hmem
      · subst heq
        exact ⟨hk, List.mem_cons_self _ _⟩
      · obtain ⟨h1, h2⟩ := ih hnod.2 hmem
        exact ⟨h1, List.mem_cons_of_mem _ h2⟩

namespace PortRegistry

/-- Releasing any reservation of a registry with unique keys, pairwise-distinct
ports and counter-dominated ports leaves its pair unreachable for assign. -/
theorem release_avoid {r : PortRegistry} (hinv : Inv r) (hcd : CountersDominate r)
    {n : String} {e : PortEntry} (hent : dictGet n r.entries = some e) :
    PortAvoid (r.release n) e.socks_port e.http_port := by
  have hd := hcd (n, e) (dictGet_mem hent)
  have hsome : (dictGet n r.entries).isSome = true := by rw [hent]; rfl
  unfold release
  rw [if_pos hsome]
  refine ⟨?_, ?_, ?_⟩
  · exact hd.1
  · exact hd.2
  · intro x hx
    have hx2 : x ∈ dictRemove n r.entries := hx
    obtain ⟨hne, hmem⟩ := mem_dictRemove_key_ne hinv.1 hx2
    have hgx : dictGet x.1 r.entries = some x.2 :=
      dictGet_of_mem_nodup (show (x.1, x.2) ∈ r.entries from hmem) hinv.1
    rcases pairwise_of_dictGet hinv.2 hne hgx hent with hR | hR
    · exact ⟨hR.1, hR.2⟩
    · exact ⟨(hR.1).symm, (hR.2).symm⟩

end PortRegistry

/-- C6, amended: in every registry state reachable from a fresh registry by
assign and release operations, release(nodeID) removes the node's reservation
entirely and never decreases the next-candidate counters; however, neither
port of the released pair is ever returned by any future sequence of assign
calls — every reservation lies below the monotone next-candidate counters, no
other reservation shares its ports, and fresh allocations scan forward from
the counters, so released ports leak instead of being reused. -/
theorem release_semantics (start_socks start_http : Nat) (ops : List PortRegistry.RegOp)
    (r : PortRegistry) (hr : r = (PortRegistry.init start_socks start_http).applyOps ops)
    (n : String) (e : PortEntry) (hent : dictGet n r.entries = some e) :
    dictGet n (r.release n).entries = none ∧
      (r.release n).next_socks = r.next_socks ∧
      (r.release n).next_http = r.next_http ∧
      ∀ ids p, p ∈ (r.release n).assign_trace ids →
        p.1 ≠ e.socks_port ∧ p.2 ≠ e.http_port := by
  have hinv : PortRegistry.Inv r :=
    hr ▸ PortRegistry.Inv_applyOps _ (PortRegistry.Inv_init start_socks start_http) ops
  have hcd : PortRegistry.CountersDominate r :=
    hr ▸ PortRegistry.CountersDominate_applyOps _
      (PortRegistry.CountersDominate_init start_socks start_http) ops
  refine ⟨PortRegistry.release_entries_removed hinv.1 n,
    (PortRegistry.release_counters r n).1, (PortRegistry.release_counters r n).2, ?_⟩
  intro ids p hp
  exact PortRegistry.assign_trace_avoid (PortRegistry.release_avoid hinv hcd hent) ids p hp

/-- Witness for C6's amended theorem: three assigns a, b, c from a fresh
registry, then release of b's middle pair (101, 201); the entry is gone, the
counters stand still, and a subsequent assign for a fresh node never returns
101 or 201. -/
theorem release_semantics_witness :
    dictGet "b" ((((PortRegistry.init 100 200).applyOps
        [PortRegistry.RegOp.assignOp "a", PortRegistry.RegOp.assignOp "b",
          PortRegistry.RegOp.assignOp "c"]).release "b")).entries = none ∧
      ((((PortRegistry.init 100 200).applyOps
        [PortRegistry.RegOp.assignOp "a", PortRegistry.RegOp.assignOp "b",
          PortRegistry.RegOp.assignOp "c"]).release "b")).next_socks =
        ((PortRegistry.init 100 200).applyOps
        [PortRegistry.RegOp.assignOp "a", PortRegistry.RegOp.assignOp "b",
          PortRegistry.RegOp.assignOp "c"]).next_socks ∧
      ((((PortRegistry.init 100 200).applyOps
        [PortRegistry.RegOp.assignOp "a", PortRegistry.RegOp.assignOp "b",
          PortRegistry.RegOp.assignOp "c"]).release "b")).next_http =
        ((PortRegistry.init 100 200).applyOps
        [PortRegistry.RegOp.assignOp "a", PortRegistry.RegOp.assignOp "b",
          PortRegistry.RegOp.assignOp "c"]).next_http ∧
      ((101, 201) ∈ ((((PortRegistry.init 100 200).applyOps
        [PortRegistry.RegOp.assignOp "a", PortRegistry.RegOp.assignOp "b",
          PortRegistry.RegOp.assignOp "c"]).release "b")).assign_trace ["d"] → False) := by
  have h := release_semantics 100 200
    [PortRegistry.RegOp.assignOp "a", PortRegistry.RegOp.assignOp "b",
      PortRegistry.RegOp.assignOp "c"]
    ((PortRegistry.init 100 200).applyOps
      [PortRegistry.RegOp.assignOp "a", PortRegistry.RegOp.assignOp "b",
        PortRegistry.RegOp.assignOp "c"])
    rfl "b" ⟨101, 201⟩ (by decide)
  exact ⟨h.1, h.2.1, h.2.2.1, fun hmem => (h.2.2.2 ["d"] (101, 201) hmem).1 rfl⟩

end AirProxyPool
